import Mathlib

/-!
Shallow embedding of the RDBMS-Rust storage engine
(`src/paged_file.rs`, `src/page.rs`, `src/bitmap.rs`, `src/attribute.rs`,
`src/record_based_file_mgr.rs`) and proofs about the spec's claims.

Modelling conventions:
* machine integers are `Nat` / `Int` with explicit `% 2^w` where the Rust
  code can overflow or casts can truncate;
* a Rust `panic!` / `.unwrap()` on an error is modelled as a distinguished
  outcome (`Option.none` or a `panicked` error constructor), typed Rust
  errors (`std::io::Error`) as explicit error constructors;
* `f64` values are modelled by their 64-bit pattern (a `Nat < 2^64`):
  `to_le_bytes` / `from_le_bytes` are bit-pattern codecs, so this is exact;
* Rust `String` payloads of `Varchar` are modelled as their UTF-8 byte
  lists (`List Nat`); `s.len()` in Rust is the byte length, matching;
* a page is a total function `Nat → Nat` from byte index to byte value
  (the code only ever reads indices `< pageSize`);
* `RecordBasedFileMgr::read`'s unbounded recursion through `Moved` slots is
  given an explicit fuel parameter; the recursion equation is proved for
  every fuel value, which captures the cycle-unprotected recursive call.
-/

namespace RDBMS

/-! ## Little-endian byte codecs (`to_le_bytes` / `from_le_bytes`, bincode) -/

/-- `k`-byte little-endian encoding of `n` (truncating, as Rust casts do). -/
def encLE : Nat → Nat → List Nat
  | 0, _ => []
  | k + 1, n => n % 256 :: encLE k (n / 256)

/-- Little-endian decoding of a byte list (each byte taken mod 256,
since on-disk bytes are `u8`). -/
def decLE : List Nat → Nat
  | [] => 0
  | b :: bs => b % 256 + 256 * decLE bs

theorem length_encLE (k n : Nat) : (encLE k n).length = k := by
  induction k generalizing n with
  | zero => rfl
  | succ k ih => simp [encLE, ih]

theorem mod_pow_succ_256 (n k : Nat) :
    n % 256 ^ (k + 1) = n % 256 + 256 * (n / 256 % 256 ^ k) := by
  have hP : 0 < 256 ^ k := pow_pos (by norm_num) k
  have h := Nat.div_add_mod n 256
  have h2 := Nat.div_add_mod (n / 256) (256 ^ k)
  have hlt : n % 256 < 256 := Nat.mod_lt _ (by norm_num)
  have hlt2 : n / 256 % 256 ^ k < 256 ^ k := Nat.mod_lt _ hP
  have hexp : n = n % 256 + 256 * (n / 256 % 256 ^ k)
      + 256 ^ (k + 1) * (n / 256 / 256 ^ k) := by
    calc n = 256 * (n / 256) + n % 256 := (Nat.div_add_mod n 256).symm
      _ = 256 * (256 ^ k * (n / 256 / 256 ^ k) + n / 256 % 256 ^ k) + n % 256 := by
            rw [h2]
      _ = n % 256 + 256 * (n / 256 % 256 ^ k) + 256 ^ (k + 1) * (n / 256 / 256 ^ k) := by
            ring
  conv_lhs => rw [hexp]
  rw [Nat.add_mul_mod_self_left]
  exact Nat.mod_eq_of_lt (by rw [pow_succ]; omega)

theorem decLE_encLE (k n : Nat) : decLE (encLE k n) = n % 256 ^ k := by
  induction k generalizing n with
  | zero => simp [encLE, decLE, Nat.mod_one]
  | succ k ih =>
      simp only [encLE, decLE, ih]
      rw [mod_pow_succ_256]
      omega

theorem decLE_encLE_of_lt {k n : Nat} (h : n < 256 ^ k) :
    decLE (encLE k n) = n := by
  rw [decLE_encLE, Nat.mod_eq_of_lt h]

theorem decLE_lt (bs : List Nat) : decLE bs < 256 ^ bs.length := by
  induction bs with
  | nil => simp [decLE]
  | cons b bs ih =>
      have hb : b % 256 < 256 := Nat.mod_lt _ (by omega)
      simp only [decLE, List.length_cons, Nat.pow_succ]
      calc b % 256 + 256 * decLE bs < 256 + 256 * decLE bs := by omega
        _ ≤ 256 * (decLE bs + 1) := by ring_nf; omega
        _ ≤ 256 * 256 ^ bs.length := by
              have := ih; exact Nat.mul_le_mul_left 256 (by omega)
        _ = 256 ^ bs.length * 256 := by ring

/-- `i32::to_le_bytes` on a value `v` (two's complement). -/
def encI32 (v : Int) : List Nat := encLE 4 (v % (2 ^ 32 : Int)).toNat

/-- Reinterpret a `u32` value as an `i32` (`as i32` cast). -/
def i32ofU32 (n : Nat) : Int :=
  if n < 2 ^ 31 then (n : Int) else (n : Int) - 2 ^ 32

/-- `i32::from_le_bytes` reading 4 bytes. -/
def decI32 (bs : List Nat) : Int := i32ofU32 (decLE bs)

theorem decI32_encI32 {v : Int} (h1 : -(2 ^ 31) ≤ v) (h2 : v < 2 ^ 31) :
    decI32 (encI32 v) = v := by
  unfold decI32 encI32 i32ofU32
  have hmod : (0 : Int) ≤ v % (2 ^ 32 : Int) := Int.emod_nonneg v (by norm_num)
  have hmod2 : v % (2 ^ 32 : Int) < 2 ^ 32 := Int.emod_lt_of_pos v (by norm_num)
  have hlt : (v % (2 ^ 32 : Int)).toNat < 256 ^ 4 := by
    have : ((2 : Int) ^ 32) = ((256 ^ 4 : Nat) : Int) := by norm_num
    omega
  rw [decLE_encLE_of_lt hlt]
  split <;> omega

/-- `u32` wrapping subtraction `a - b` (`a` a `u32`, `b` cast `as u32`):
release-mode two's-complement wraparound. -/
def u32sub (a b : Nat) : Nat := (a + (2 ^ 32 - b % 2 ^ 32)) % 2 ^ 32

theorem u32sub_no_underflow {a b : Nat} (hb : b ≤ a) (ha : a < 2 ^ 32) :
    u32sub a b = a - b := by
  unfold u32sub
  have hbm : b % 2 ^ 32 = b := Nat.mod_eq_of_lt (by omega)
  rw [hbm]
  have : a + (2 ^ 32 - b) = 2 ^ 32 + (a - b) := by omega
  rw [this, Nat.add_mod_left, Nat.mod_eq_of_lt (by omega)]

theorem u32sub_underflow {a b : Nat} (hb : a < b) (hb2 : b < 2 ^ 32) :
    u32sub a b = a + (2 ^ 32 - b) := by
  unfold u32sub
  have hbm : b % 2 ^ 32 = b := Nat.mod_eq_of_lt hb2
  rw [hbm, Nat.mod_eq_of_lt (by omega)]

/-! ## Bitmap (`src/bitmap.rs`) -/

structure Bitmap where
  bmp : List Nat
  size : Nat
deriving DecidableEq

/-- `Bitmap::bmp_size_in_bytes`: `size/8`, rounded up if any remainder. -/
def Bitmap.bmpSizeInBytes (size : Nat) : Nat :=
  let quot := size / 8
  let rem := size % 8
  if rem ≠ 0 then quot + 1 else quot

/-- `Bitmap::new`: zero-filled vector of `ceil(size/8)` bytes. -/
def Bitmap.new (size : Nat) : Bitmap :=
  ⟨List.replicate (Bitmap.bmpSizeInBytes size) 0, size⟩

/-- `Bitmap::new_with_vec`: wraps caller bytes, panics (`none`) on a length
mismatch. -/
def Bitmap.newWithVec (size : Nat) (v : List Nat) : Option Bitmap :=
  if Bitmap.bmpSizeInBytes size = v.length then some ⟨v, size⟩ else none

/-- `Bitmap::set`: panics (`none`) if `idx >= size`, else ORs in the mask
`1 << (idx % 8)` at byte `idx / 8`. -/
def Bitmap.bset (b : Bitmap) (idx : Nat) : Option Bitmap :=
  if idx ≥ b.size then none
  else some ⟨b.bmp.set (idx / 8) (b.bmp.getD (idx / 8) 0 ||| 2 ^ (idx % 8)), b.size⟩

/-- `Bitmap::get`: panics (`none`) if `idx >= size`, else tests
`bmp[idx/8] & (1 << (idx%8)) != 0`. -/
def Bitmap.bget (b : Bitmap) (idx : Nat) : Option Bool :=
  if idx ≥ b.size then none
  else some (b.bmp.getD (idx / 8) 0 &&& 2 ^ (idx % 8) ≠ 0)

theorem Bitmap.bset_length {b : Bitmap} {idx : Nat} {b' : Bitmap}
    (h : b.bset idx = some b') : b'.bmp.length = b.bmp.length ∧ b'.size = b.size := by
  unfold Bitmap.bset at h
  by_cases hidx : idx ≥ b.size
  · simp [hidx] at h
  · simp only [hidx, if_false] at h
    cases h
    simp

theorem getD_replicate_zero (r i : Nat) :
    (List.replicate r (0 : Nat)).getD i 0 = 0 := by
  rw [List.getD_eq_getElem?_getD]
  exact List.getElem?_getD_replicate_default_eq 0 r i

theorem Bitmap.bget_new {size idx : Nat} (h : idx < size) :
    (Bitmap.new size).bget idx = some false := by
  unfold Bitmap.new Bitmap.bget
  rw [if_neg (by omega : ¬ idx ≥ size)]
  simp [getD_replicate_zero]

/-! ## Attributes and values (`src/attribute.rs`) -/

inductive AttributeType where
  | int
  | real
  | varchar (len : Nat)
deriving DecidableEq

structure Attribute where
  name : String
  attribute_type : AttributeType
deriving DecidableEq

/-- `AttributeValue`: `Real` carries the `f64` bit pattern, `Varchar` the
UTF-8 bytes of the string. -/
inductive AttributeValue where
  | int (v : Int)
  | real (bits : Nat)
  | varchar (bytes : List Nat)
deriving DecidableEq

/-- A record: the `HashMap<String, AttributeValue>`, modelled as an
association list accessed through `List.lookup`. -/
abbrev Record := List (String × AttributeValue)

/-- `RecordBasedFileMgr::attribute_type_matches_value`. -/
def attributeTypeMatchesValue : AttributeType → AttributeValue → Bool
  | .int, .int _ => true
  | .real, .real _ => true
  | .varchar maxLen, .varchar s => decide (s.length ≤ maxLen)
  | _, _ => false

/-! ## Pages (`src/page.rs`) and the record manager's paged file

`PAGE_SIZE` in `record_based_file_mgr.rs` is the constant `8 * 1024`.
A page buffer is a total byte function; `PagedFile` as used by
`RecordBasedFileMgr` is the list of its pages plus the file cursor
position (the byte contents and the seek position are the whole
observable file state). -/

def pageSize : Nat := 8 * 1024

def HEADER_LEN : Nat := 8

def PageBuf : Type := Nat → Nat

/-- `Page::new`: zero-filled buffer. -/
def zeroPage : PageBuf := fun _ => 0

/-- Overwrite bytes `[start, start + bs.length)` of a page buffer. -/
def writeBytes (p : PageBuf) (start : Nat) (bs : List Nat) : PageBuf :=
  fun i => if start ≤ i ∧ i < start + bs.length then bs.getD (i - start) 0 else p i

/-- Read `len` bytes of the buffer starting at `start`
(`&buf[start..start+len]`). -/
def sliceP (p : PageBuf) (start : Nat) : Nat → List Nat
  | 0 => []
  | k + 1 => p start :: sliceP p (start + 1) k

structure PFile where
  pages : List PageBuf
  pos : Nat

inductive PfErr where
  | notFound
  | eofE
deriving DecidableEq

/-- `PagedFile::read_page` (via `seek` + `read_exact`): the `seek` guard is
`num_pages < pagenum` (note: not `<=`), so index `num_pages` passes the
check, seeks to end of file and then fails with an unexpected-EOF error
from `read_exact`; indices beyond that fail with the not-found error. -/
def pfReadPage (f : PFile) (n : Nat) : Except PfErr PageBuf × PFile :=
  if f.pages.length < n then (.error .notFound, f)
  else if h : n < f.pages.length then
    (.ok (f.pages.get ⟨n, h⟩), ⟨f.pages, HEADER_LEN + n * pageSize + pageSize⟩)
  else (.error .eofE, ⟨f.pages, HEADER_LEN + n * pageSize⟩)

/-- `PagedFile::write_page` (via `seek` + `write_all`): same off-by-one
guard; writing at index `num_pages` lands at end of file and extends it. -/
def pfWritePage (f : PFile) (n : Nat) (p : PageBuf) : Except PfErr Unit × PFile :=
  if f.pages.length < n then (.error .notFound, f)
  else if n < f.pages.length then
    (.ok (), ⟨f.pages.set n p, HEADER_LEN + n * pageSize + pageSize⟩)
  else (.ok (), ⟨f.pages ++ [p], HEADER_LEN + n * pageSize + pageSize⟩)

/-- `PagedFile::append_page`: seek to end, write one page. -/
def pfAppendPage (f : PFile) (p : PageBuf) : PFile :=
  ⟨f.pages ++ [p], HEADER_LEN + f.pages.length * pageSize + pageSize⟩

/-! ## Slot directory (`record_based_file_mgr.rs`)

The header is written with `bincode::serialize` (fixed-width
little-endian integers, `Vec` length-prefixed by a `u64`), so its byte
encoding is `u32 data_start_offset ++ u64 count ++ count × (u32 length ++
i32 offset)`. -/

def HDR_SIZE : Nat := 12

def RECORD_ENTRY_SIZE : Nat := 8

structure SlotDirectoryRecordEntry where
  length : Nat
  offset : Int
deriving DecidableEq

instance : Inhabited SlotDirectoryRecordEntry := ⟨⟨0, 0⟩⟩

structure SlotDirectoryHeader where
  data_start_offset : Nat
  slots_vec : List SlotDirectoryRecordEntry
deriving DecidableEq

structure RecordId where
  page_num : Nat
  slot_num : Nat
deriving DecidableEq

inductive SlotStatus where
  | valid
  | dead
  | moved (rid : RecordId)
deriving DecidableEq

/-- `SlotDirectoryRecordEntry::status`. -/
def slotStatus (e : SlotDirectoryRecordEntry) : SlotStatus :=
  if e.length = 0 ∧ e.offset = 0 then .dead
  else if e.offset < 0 then .moved ⟨e.length, (-e.offset).toNat⟩
  else .valid

/-- bincode encoding of one `SlotDirectoryRecordEntry`. -/
def encodeEntry (e : SlotDirectoryRecordEntry) : List Nat :=
  encLE 4 e.length ++ encI32 e.offset

/-- bincode encoding of a `SlotDirectoryHeader`. -/
def encodeHdr (h : SlotDirectoryHeader) : List Nat :=
  encLE 4 h.data_start_offset ++ encLE 8 h.slots_vec.length
    ++ h.slots_vec.flatMap encodeEntry

theorem length_encodeEntry (e : SlotDirectoryRecordEntry) :
    (encodeEntry e).length = RECORD_ENTRY_SIZE := by
  simp [encodeEntry, encI32, length_encLE, RECORD_ENTRY_SIZE]

theorem length_encodeHdr (h : SlotDirectoryHeader) :
    (encodeHdr h).length = HDR_SIZE + RECORD_ENTRY_SIZE * h.slots_vec.length := by
  simp only [encodeHdr, List.length_append, length_encLE, HDR_SIZE]
  have : (h.slots_vec.flatMap encodeEntry).length
      = RECORD_ENTRY_SIZE * h.slots_vec.length := by
    induction h.slots_vec with
    | nil => simp
    | cons e rest ih =>
        simp [List.flatMap_cons, length_encodeEntry, ih, Nat.mul_succ, Nat.mul_add]
        omega
  omega

/-- Decode `count` slot entries from byte offset `start` of a page. -/
def decodeEntries (p : PageBuf) (start : Nat) : Nat → List SlotDirectoryRecordEntry
  | 0 => []
  | k + 1 =>
      ⟨decLE (sliceP p start 4), decI32 (sliceP p (start + 4) 4)⟩
        :: decodeEntries p (start + 8) k

/-- `RecordBasedFileMgr::get_slot_directory_hdr`:
`bincode::deserialize(page.as_buf())`. Fails (`none`, an `unwrap` panic at
the call sites) when the declared entry count does not fit in the page. -/
def decodeHdr (p : PageBuf) : Option SlotDirectoryHeader :=
  let dso := decLE (sliceP p 0 4)
  let count := decLE (sliceP p 4 8)
  if HDR_SIZE + RECORD_ENTRY_SIZE * count ≤ pageSize then
    some ⟨dso, decodeEntries p HDR_SIZE count⟩
  else none

/-- `RecordBasedFileMgr::write_slot_directory_hdr`:
`bincode::serialize_into(&mut page[..], hdr)`, panics (`none`) if the
serialized header exceeds the page. -/
def writeSlotDirectoryHdr (p : PageBuf) (h : SlotDirectoryHeader) : Option PageBuf :=
  if (encodeHdr h).length ≤ pageSize then some (writeBytes p 0 (encodeHdr h)) else none

/-- `RecordBasedFileMgr::free_space` (`usize` subtraction modelled as
truncating `Nat` subtraction; the code relies on
`data_start_offset ≥ header size`). -/
def freeSpace (h : SlotDirectoryHeader) : Nat :=
  h.data_start_offset - (encodeHdr h).length

/-- `RecordBasedFileMgr::init_rb_page`: zero the buffer then serialize the
header `{data_start_offset: PAGE_SIZE, slots_vec: []}` into its front. -/
def initRbPage : PageBuf :=
  writeBytes zeroPage 0 (encodeHdr ⟨pageSize, []⟩)

/-! ### Slice / write lemmas for page buffers -/

theorem length_sliceP (p : PageBuf) (start k : Nat) : (sliceP p start k).length = k := by
  induction k generalizing start with
  | zero => rfl
  | succ k ih => simp [sliceP, ih]

theorem sliceP_add (p : PageBuf) (start m n : Nat) :
    sliceP p start (m + n) = sliceP p start m ++ sliceP p (start + m) n := by
  induction m generalizing start with
  | zero => simp [sliceP]
  | succ m ih =>
      have : m + 1 + n = (m + n) + 1 := by omega
      rw [this]
      simp only [sliceP, ih, List.cons_append]
      have : start + 1 + m = start + (m + 1) := by omega
      rw [this]

theorem sliceP_writeBytes_within (p : PageBuf) (s bs : _) :
    ∀ (k a : Nat), a + k ≤ bs.length →
      sliceP (writeBytes p s bs) (s + a) k = (bs.drop a).take k := by
  intro k
  induction k with
  | zero => intro a _; simp [sliceP]
  | succ k ih =>
      intro a ha
      have hlt : a < bs.length := by omega
      simp only [sliceP]
      have hhead : writeBytes p s bs (s + a) = bs[a] := by
        unfold writeBytes
        rw [if_pos ⟨by omega, by omega⟩]
        simp [List.getD_eq_getElem?_getD, List.getElem?_eq_getElem hlt]
      have htail : sliceP (writeBytes p s bs) (s + a + 1) k = (bs.drop (a + 1)).take k := by
        have h2 := ih (a + 1) (by omega)
        have harg : s + (a + 1) = s + a + 1 := by omega
        rw [harg] at h2
        exact h2
      rw [hhead, htail, List.drop_eq_getElem_cons hlt, List.take_succ_cons]

theorem sliceP_writeBytes_before (p : PageBuf) (s bs : _) :
    ∀ (k a : Nat), a + k ≤ s → sliceP (writeBytes p s bs) a k = sliceP p a k := by
  intro k
  induction k with
  | zero => intro a _; rfl
  | succ k ih =>
      intro a ha
      simp only [sliceP]
      rw [ih (a + 1) (by omega)]
      congr 1
      unfold writeBytes
      rw [if_neg (by omega)]

/-! ### Header encode/decode round trip -/

/-- Field ranges enforced by the Rust types `u32` / `i32`. -/
def EntryWf (e : SlotDirectoryRecordEntry) : Prop :=
  e.length < 2 ^ 32 ∧ -(2 ^ 31) ≤ e.offset ∧ e.offset < 2 ^ 31

/-- Field ranges of a header as stored on disk. -/
def HdrWf (h : SlotDirectoryHeader) : Prop :=
  h.data_start_offset < 2 ^ 32 ∧ ∀ e ∈ h.slots_vec, EntryWf e

theorem decodeEntries_encoded (p : PageBuf) :
    ∀ (slots : List SlotDirectoryRecordEntry) (start : Nat),
      (∀ e ∈ slots, EntryWf e) →
      sliceP p start (RECORD_ENTRY_SIZE * slots.length) = slots.flatMap encodeEntry →
      decodeEntries p start slots.length = slots := by
  intro slots
  induction slots with
  | nil => intro start _ _; rfl
  | cons e rest ih =>
      intro start hwf hs
      have hlen8 : RECORD_ENTRY_SIZE * (e :: rest).length
          = 8 + RECORD_ENTRY_SIZE * rest.length := by
        simp only [RECORD_ENTRY_SIZE, List.length_cons]
        ring
      rw [hlen8, sliceP_add, List.flatMap_cons] at hs
      have hsplit := List.append_inj hs (by
        rw [length_sliceP, length_encodeEntry]; rfl)
      obtain ⟨h1, h2⟩ := hsplit
      rw [show (8 : Nat) = 4 + 4 from rfl, sliceP_add] at h1
      unfold encodeEntry at h1
      have hinj := List.append_inj h1 (by simp [length_sliceP, length_encLE])
      have hewf := hwf e (List.mem_cons_self e rest)
      simp only [decodeEntries, List.length_cons]
      rw [hinj.1, hinj.2, decLE_encLE_of_lt (by
            have h256 : (256 : Nat) ^ 4 = 2 ^ 32 := by norm_num
            rw [h256]; exact hewf.1)]
      have hoff : decI32 (encI32 e.offset) = e.offset := decI32_encI32 hewf.2.1 hewf.2.2
      rw [hoff]
      congr 1
      exact ih (start + 8) (fun x hx => hwf x (List.mem_cons_of_mem _ hx)) h2

theorem length_flatMap_encodeEntry (slots : List SlotDirectoryRecordEntry) :
    (slots.flatMap encodeEntry).length = RECORD_ENTRY_SIZE * slots.length := by
  have h1 := length_encodeHdr ⟨0, slots⟩
  simp only [encodeHdr, List.length_append, length_encLE, HDR_SIZE] at h1
  omega

theorem decodeHdr_writeBytes_encodeHdr (p : PageBuf) (h : SlotDirectoryHeader)
    (hwf : HdrWf h) (hfit : (encodeHdr h).length ≤ pageSize) :
    decodeHdr (writeBytes p 0 (encodeHdr h)) = some h := by
  have hlen := length_encodeHdr h
  have hcount : h.slots_vec.length < 256 ^ 8 := by
    have h2 : HDR_SIZE + RECORD_ENTRY_SIZE * h.slots_vec.length ≤ pageSize := by
      rw [← hlen]; exact hfit
    have h3 : h.slots_vec.length ≤ 8192 := by
      simp only [HDR_SIZE, RECORD_ENTRY_SIZE, pageSize] at h2
      omega
    have h4 : (8192 : Nat) < 256 ^ 8 := by norm_num
    omega
  have hall : sliceP (writeBytes p 0 (encodeHdr h)) 0 4
      ++ (sliceP (writeBytes p 0 (encodeHdr h)) 4 8
          ++ sliceP (writeBytes p 0 (encodeHdr h)) 12
              (RECORD_ENTRY_SIZE * h.slots_vec.length))
      = encLE 4 h.data_start_offset ++ (encLE 8 h.slots_vec.length
          ++ h.slots_vec.flatMap encodeEntry) := by
    have hsum : (encodeHdr h).length
        = 4 + (8 + RECORD_ENTRY_SIZE * h.slots_vec.length) := by
      rw [hlen]; simp only [HDR_SIZE]; omega
    have hw := sliceP_writeBytes_within p 0 (encodeHdr h)
      (4 + (8 + RECORD_ENTRY_SIZE * h.slots_vec.length)) 0 (by omega)
    rw [sliceP_add, sliceP_add] at hw
    simp only [Nat.zero_add, List.drop_zero] at hw
    rw [← hsum, List.take_length] at hw
    have h48 : (4 : Nat) + 8 = 12 := rfl
    rw [h48] at hw
    rw [hw]
    simp only [encodeHdr, List.append_assoc]
  have hinj1 := List.append_inj hall (by simp [length_sliceP, length_encLE])
  have hinj2 := List.append_inj hinj1.2 (by simp [length_sliceP, length_encLE])
  have h1 := hinj1.1
  have h2 := hinj2.1
  have h3 := hinj2.2
  unfold decodeHdr
  simp only [h1, h2]
  have e2 : decLE (encLE 8 h.slots_vec.length) = h.slots_vec.length :=
    decLE_encLE_of_lt hcount
  have e1 : decLE (encLE 4 h.data_start_offset) = h.data_start_offset :=
    decLE_encLE_of_lt (by
      have h256 : (256 : Nat) ^ 4 = 2 ^ 32 := by norm_num
      rw [h256]; exact hwf.1)
  simp only [e1, e2]
  rw [if_pos (by rw [← hlen]; exact hfit)]
  have hents := decodeEntries_encoded (writeBytes p 0 (encodeHdr h)) h.slots_vec 12
    hwf.2 h3
  simp only [HDR_SIZE]
  rw [hents]

theorem i32ofU32_range {n : Nat} (h : n < 2 ^ 32) :
    -(2 ^ 31) ≤ i32ofU32 n ∧ i32ofU32 n < 2 ^ 31 := by
  unfold i32ofU32
  split <;> omega

theorem decodeEntries_length (p : PageBuf) :
    ∀ (c start : Nat), (decodeEntries p start c).length = c := by
  intro c
  induction c with
  | zero => intro start; rfl
  | succ c ih => intro start; simp [decodeEntries, ih]

theorem decodeEntries_wf (p : PageBuf) :
    ∀ (c start : Nat), ∀ e ∈ decodeEntries p start c, EntryWf e := by
  intro c
  induction c with
  | zero => intro start e he; simp [decodeEntries] at he
  | succ c ih =>
      intro start e he
      simp only [decodeEntries, List.mem_cons] at he
      rcases he with he | he
      · subst he
        have hl : decLE (sliceP p start 4) < 2 ^ 32 := by
          have := decLE_lt (sliceP p start 4)
          rw [length_sliceP] at this
          have h256 : (256 : Nat) ^ 4 = 2 ^ 32 := by norm_num
          omega
        have ho : decLE (sliceP p (start + 4) 4) < 2 ^ 32 := by
          have := decLE_lt (sliceP p (start + 4) 4)
          rw [length_sliceP] at this
          have h256 : (256 : Nat) ^ 4 = 2 ^ 32 := by norm_num
          omega
        have hrange := i32ofU32_range ho
        exact ⟨hl, hrange.1, hrange.2⟩
      · exact ih (start + 8) e he

set_option maxHeartbeats 1000000 in
theorem decodeHdr_wf {p : PageBuf} {h : SlotDirectoryHeader}
    (hp : decodeHdr p = some h) :
    HdrWf h ∧ (encodeHdr h).length ≤ pageSize := by
  simp only [decodeHdr] at hp
  split at hp
  case isTrue hcond =>
    have hh : h = ⟨decLE (sliceP p 0 4), decodeEntries p HDR_SIZE (decLE (sliceP p 4 8))⟩ := by
      cases hp; rfl
    rw [hh]
    refine ⟨⟨?_, ?_⟩, ?_⟩
    · have hd := decLE_lt (sliceP p 0 4)
      rw [length_sliceP] at hd
      have h256 : (256 : Nat) ^ 4 = 2 ^ 32 := by norm_num
      simp only [HdrWf]
      omega
    · exact decodeEntries_wf p _ HDR_SIZE
    · rw [length_encodeHdr]
      simp only [decodeEntries_length]
      exact hcond
  case isFalse => cases hp


theorem decodeEntries_writeBytes_frame (q : PageBuf) (s : Nat) (bs : List Nat) :
    ∀ (c start : Nat), start + RECORD_ENTRY_SIZE * c ≤ s →
      decodeEntries (writeBytes q s bs) start c = decodeEntries q start c := by
  intro c
  induction c with
  | zero => intro start _; rfl
  | succ c ih =>
      intro start hle
      simp only [RECORD_ENTRY_SIZE] at hle
      simp only [decodeEntries]
      rw [sliceP_writeBytes_before q s bs 4 start (by omega),
          sliceP_writeBytes_before q s bs 4 (start + 4) (by omega),
          ih (start + 8) (by simp only [RECORD_ENTRY_SIZE]; omega)]

set_option maxHeartbeats 1000000 in
/-- Writing bytes at or beyond the serialized header leaves the decoded
header unchanged. -/
theorem decodeHdr_writeBytes_frame {q : PageBuf} {h : SlotDirectoryHeader}
    (s : Nat) (bs : List Nat) (hq : decodeHdr q = some h)
    (hs : (encodeHdr h).length ≤ s) :
    decodeHdr (writeBytes q s bs) = some h := by
  have hlen := length_encodeHdr h
  simp only [decodeHdr] at hq ⊢
  split at hq
  case isTrue hcond =>
    have hh : h = ⟨decLE (sliceP q 0 4), decodeEntries q HDR_SIZE (decLE (sliceP q 4 8))⟩ := by
      cases hq; rfl
    have hclen : h.slots_vec.length = decLE (sliceP q 4 8) := by
      rw [hh]
      exact decodeEntries_length q _ HDR_SIZE
    have hs12 : HDR_SIZE + RECORD_ENTRY_SIZE * decLE (sliceP q 4 8) ≤ s := by
      rw [← hclen, ← length_encodeHdr]
      exact hs
    have hs12n : (12 : Nat) ≤ s := by
      simp only [HDR_SIZE] at hs12
      omega
    rw [sliceP_writeBytes_before q s bs 4 0 (by omega),
        sliceP_writeBytes_before q s bs 8 4 (by omega)]
    rw [if_pos hcond]
    rw [decodeEntries_writeBytes_frame q s bs (decLE (sliceP q 4 8)) HDR_SIZE hs12]
    exact hq
  case isFalse => cases hq

/-! ## Record codec (`record_based_file_mgr.rs`) -/

/-- `Iterator::enumerate` starting at index `i`. -/
def enumFrom {α : Type} : Nat → List α → List (Nat × α)
  | _, [] => []
  | i, a :: rest => (i, a) :: enumFrom (i + 1) rest

/-- `RecordBasedFileMgr::null_bitmap_len`. -/
def nullBitmapLen (attrsLen : Nat) : Nat := Bitmap.bmpSizeInBytes attrsLen

/-- The per-attribute size and type-check loop of
`RecordBasedFileMgr::record_size`; returns
`(offset_headers_len, data_len)` or the `InvalidInput` type-mismatch
error. -/
def recordSizeAux (vals : Record) : List Attribute → Except Unit (Nat × Nat)
  | [] => .ok (0, 0)
  | a :: rest =>
    match List.lookup a.name vals with
    | none => recordSizeAux vals rest
    | some v =>
      if attributeTypeMatchesValue a.attribute_type v then
        match recordSizeAux vals rest with
        | .error e => .error e
        | .ok (oh, dl) =>
            .ok (oh + 2, dl + (match v with
              | .int _ => 4
              | .real _ => 8
              | .varchar s => s.length))
      else .error ()

/-- `RecordBasedFileMgr::record_size`. -/
def recordSize (attrs : List Attribute) (vals : Record) : Except Unit Nat :=
  match recordSizeAux vals attrs with
  | .error e => .error e
  | .ok (oh, dl) => .ok (nullBitmapLen attrs.length + 2 + oh + dl)

/-- The bytes `AttributeValue → Vec<u8>` conversion in
`write_record_into_buf` produces. -/
def encodeValue : AttributeValue → List Nat
  | .int v => encI32 v
  | .real bits => encLE 8 bits
  | .varchar s => s

/-- First loop of `write_record_into_buf`: mark present attributes in the
null bitmap and count them (`none` models the `Bitmap::set` panic). -/
def buildBmp (vals : Record) : List (Nat × Attribute) → Bitmap → Nat → Option (Bitmap × Nat)
  | [], bmp, cnt => some (bmp, cnt)
  | (i, a) :: rest, bmp, cnt =>
    if (List.lookup a.name vals).isSome then
      match bmp.bset i with
      | none => none
      | some bmp2 => buildBmp vals rest bmp2 (cnt + 1)
    else buildBmp vals rest bmp cnt

inductive WErr where
  | typeMismatch
  | panicked
deriving DecidableEq

/-- Second loop of `write_record_into_buf`: for each non-null attribute,
type-check, convert the value to bytes and record the end-offset header
(`data_offset as u16`). Returns `(data_bytes, offset_headers)`. -/
def writeValsAux (vals : Record) (bmp : Bitmap) :
    List (Nat × Attribute) → Nat → Except WErr (List Nat × List Nat)
  | [], _ => .ok ([], [])
  | (i, a) :: rest, dataOffset =>
    match bmp.bget i with
    | none => .error .panicked
    | some false => writeValsAux vals bmp rest dataOffset
    | some true =>
      match List.lookup a.name vals with
      | none => .error .panicked
      | some v =>
        if attributeTypeMatchesValue a.attribute_type v then
          let bytes := encodeValue v
          match writeValsAux vals bmp rest (dataOffset + bytes.length) with
          | .error e => .error e
          | .ok (data, hdrs) =>
              .ok (bytes ++ data, (dataOffset + bytes.length) % 2 ^ 16 :: hdrs)
        else .error .typeMismatch

/-- `RecordBasedFileMgr::write_record_into_buf`: returns the record bytes
written into `buf[0..record_size)` (`num_attributes as u16`, null bitmap,
offset headers, value bytes). -/
def writeRecordIntoBuf (attrs : List Attribute) (vals : Record) :
    Except WErr (List Nat) :=
  match buildBmp vals (enumFrom 0 attrs) (Bitmap.new attrs.length) 0 with
  | none => .error .panicked
  | some (bmp, validCnt) =>
    let bl := nullBitmapLen attrs.length
    match writeValsAux vals bmp (enumFrom 0 attrs) (2 + bl + validCnt * 2) with
    | .error e => .error e
    | .ok (data, hdrs) =>
        .ok (encLE 2 (attrs.length % 2 ^ 16) ++ bmp.bmp
          ++ hdrs.flatMap (encLE 2) ++ data)

inductive RdErr where
  | io (e : PfErr)
  | invalidInput
  | recordDeleted
  | varcharTooLong
  | eofRead
  | panicked
  | fuelOut
deriving DecidableEq

/-- `Cursor::read_exact` over an in-memory slice: `none` is the
`UnexpectedEof` error. -/
def readExact (buf : List Nat) (pos k : Nat) : Option (List Nat) :=
  if pos + k ≤ buf.length then some ((buf.drop pos).take k) else none

/-- The offset-header reading loop of `read_record_from_buf`: one `u16`
per set bitmap bit. -/
def readHdrs (bmp : Bitmap) (buf : List Nat) :
    List Nat → Nat → Except RdErr (List Nat × Nat)
  | [], pos => .ok ([], pos)
  | i :: rest, pos =>
    match bmp.bget i with
    | none => .error .panicked
    | some false => readHdrs bmp buf rest pos
    | some true =>
      match readExact buf pos 2 with
      | none => .error .eofRead
      | some bs =>
        match readHdrs bmp buf rest (pos + 2) with
        | .error e => .error e
        | .ok (hs, pos2) => .ok (decLE bs :: hs, pos2)

/-- The value-decoding loop of `read_record_from_buf`: walk the schema,
skip null attributes, decode each present value per its schema type.
A Varchar length is implied by its offset header (`end - cursor`, whose
`u64` underflow is a panic), and is rejected as `InvalidData` if it
exceeds the declared maximum. -/
def readValsAux (buf : List Nat) (bmp : Bitmap) (hdrs : List Nat) :
    List (Nat × Attribute) → Nat → Nat → Except RdErr Record
  | [], _, _ => .ok []
  | (i, a) :: rest, oidx, pos =>
    match bmp.bget i with
    | none => .error .panicked
    | some false => readValsAux buf bmp hdrs rest oidx pos
    | some true =>
      match a.attribute_type with
      | .int =>
        match readExact buf pos 4 with
        | none => .error .eofRead
        | some bs =>
          match readValsAux buf bmp hdrs rest (oidx + 1) (pos + 4) with
          | .error e => .error e
          | .ok r => .ok ((a.name, .int (decI32 bs)) :: r)
      | .real =>
        match readExact buf pos 8 with
        | none => .error .eofRead
        | some bs =>
          match readValsAux buf bmp hdrs rest (oidx + 1) (pos + 8) with
          | .error e => .error e
          | .ok r => .ok ((a.name, .real (decLE bs)) :: r)
      | .varchar maxLen =>
        match hdrs.get? oidx with
        | none => .error .panicked
        | some endO =>
          if endO < pos then .error .panicked
          else
            let strLen := endO - pos
            if maxLen < strLen then .error .varcharTooLong
            else
              match readExact buf pos strLen with
              | none => .error .eofRead
              | some bs =>
                match readValsAux buf bmp hdrs rest (oidx + 1) (pos + strLen) with
                | .error e => .error e
                | .ok r => .ok ((a.name, .varchar bs) :: r)

/-- `RecordBasedFileMgr::read_record_from_buf`. The result map is listed
in schema order (the Rust code returns an unordered `HashMap` with
exactly these entries). -/
def readRecordFromBuf (attrs : List Attribute) (buf : List Nat) : Except RdErr Record :=
  match readExact buf 0 2 with
  | none => .error .eofRead
  | some nb =>
    let num := decLE nb
    let bl := Bitmap.bmpSizeInBytes num
    match readExact buf 2 bl with
    | none => .error .eofRead
    | some bv =>
      match Bitmap.newWithVec num bv with
      | none => .error .panicked
      | some bmp =>
        match readHdrs bmp buf (List.range num) (2 + bl) with
        | .error e => .error e
        | .ok (hdrs, pos2) => readValsAux buf bmp hdrs (enumFrom 0 attrs) 0 pos2

/-! ## RecordBasedFileMgr state and operations -/

structure Rbfm where
  paged_file : PFile
  attributes : List Attribute

/-- `RecordBasedFileMgr::required_space` unwraps `record_size`'s
`Result`, so a type-mismatch error there is a panic in the Rust code;
`insert` therefore models it as a panic outcome, not a typed error. -/
inductive IErr where
  | panicked
  | io (e : PfErr)
deriving DecidableEq

/-- The page-scan loop of `RecordBasedFileMgr::insert`: reads every page
`0..num_pages` into the single scratch buffer, remembering the index of
the last page whose free space is at least `required`. Note the returned
buffer is whatever page was read last, regardless of which index was
remembered. -/
def scanPagesAux (required : Nat) :
    List Nat → (Bool × Nat) → PageBuf → PFile → Except IErr (Bool × Nat × PageBuf × PFile)
  | [], acc, buf, pf => .ok (acc.1, acc.2, buf, pf)
  | i :: rest, acc, _, pf =>
    match pfReadPage pf i with
    | (.error e, _) => .error (.io e)
    | (.ok page, pf2) =>
      match decodeHdr page with
      | none => .error .panicked
      | some hdr =>
        if freeSpace hdr < required then scanPagesAux required rest acc page pf2
        else scanPagesAux required rest (true, i) page pf2

/-- `RecordBasedFileMgr::insert`. `.error .panicked` models the `unwrap`
panics (`required_space`, header serialization, out-of-range slicing,
`write_record_into_buf` errors); I/O errors from the paged file are
`.error (.io _)`. -/
def insert (mgr : Rbfm) (vals : Record) : Except IErr (RecordId × Rbfm) :=
  match recordSize mgr.attributes vals with
  | .error _ => .error .panicked
  | .ok rsz =>
    let required := RECORD_ENTRY_SIZE + rsz
    let numPages := mgr.paged_file.pages.length
    match scanPagesAux required (List.range numPages) (false, 0) zeroPage mgr.paged_file with
    | .error e => .error e
    | .ok (found, pnum, buf, pf1) =>
      let pageNum := if found then pnum else numPages
      let page0 := if found then buf else initRbPage
      match decodeHdr page0 with
      | none => .error .panicked
      | some hdr =>
        let rid : RecordId := ⟨pageNum, hdr.slots_vec.length⟩
        let startingOffset := u32sub hdr.data_start_offset required
        let hdr2 : SlotDirectoryHeader :=
          ⟨startingOffset,
           hdr.slots_vec ++ [⟨required % 2 ^ 32, i32ofU32 startingOffset⟩]⟩
        match writeSlotDirectoryHdr page0 hdr2 with
        | none => .error .panicked
        | some page1 =>
          if startingOffset + required ≤ pageSize then
            match writeRecordIntoBuf mgr.attributes vals with
            | .error _ => .error .panicked
            | .ok recBytes =>
              let page2 := writeBytes page1 startingOffset recBytes
              if found then
                match pfWritePage pf1 pageNum page2 with
                | (.error e, _) => .error (.io e)
                | (.ok _, pf2) => .ok (rid, ⟨pf2, mgr.attributes⟩)
              else
                .ok (rid, ⟨pfAppendPage pf1 page2, mgr.attributes⟩)
          else .error .panicked

/-- `RecordBasedFileMgr::create`: create the paged file (header only,
zero pages), append one freshly initialized record page. -/
def rbfmCreate (attrs : List Attribute) : Rbfm :=
  ⟨pfAppendPage ⟨[], HEADER_LEN⟩ initRbPage, attrs⟩

/-- `RecordBasedFileMgr::read`, with explicit fuel for the unbounded
`Moved`-chain recursion (`.error .fuelOut` is an artifact of the model:
the Rust code would keep recursing). Returns the result together with
the paged-file state after the call. -/
def readRec (mgr : Rbfm) : Nat → RecordId → Except RdErr Record × PFile
  | 0, _ => (.error .fuelOut, mgr.paged_file)
  | fuel + 1, rid =>
    match pfReadPage mgr.paged_file rid.page_num with
    | (.error e, pf2) => (.error (.io e), pf2)
    | (.ok page, pf2) =>
      match decodeHdr page with
      | none => (.error .panicked, pf2)
      | some hdr =>
        if hdr.slots_vec.length ≤ rid.slot_num then (.error .invalidInput, pf2)
        else
          let slot := hdr.slots_vec.getD rid.slot_num default
          match slotStatus slot with
          | .dead => (.error .recordDeleted, pf2)
          | .moved target => readRec ⟨pf2, mgr.attributes⟩ fuel target
          | .valid =>
            if slot.offset.toNat + slot.length ≤ pageSize then
              (readRecordFromBuf mgr.attributes
                (sliceP page slot.offset.toNat slot.length), pf2)
            else (.error .panicked, pf2)

/-! ## PagedFile on raw file bytes (`src/paged_file.rs`, claims C2/C6)

`PagedFile<P>` is generic over the page size; here the file is its raw
byte list (first 8 bytes: the little-endian `u64` page size header). -/

/-- `PagedFile::<P>::create` at a fresh path: the file contains exactly
the 8-byte page-size header. -/
def pfCreateBytes (P : Nat) : List Nat := encLE 8 P

/-- The header validation performed by `PagedFile::<P>::open`: read the
first 8 bytes, compare with the configured page size, and report both
values in the error message on a mismatch. -/
def pfOpenChk (bytes : List Nat) (P : Nat) : Except String Unit :=
  match readExact bytes 0 8 with
  | none => .error "failed to fill whole buffer"
  | some hdrBytes =>
    let hdrPageSize := decLE hdrBytes
    if hdrPageSize ≠ P then
      .error ("Page size mismatch. Header: " ++ toString hdrPageSize
        ++ ", Expected: " ++ toString P)
    else .ok ()

/-- `PagedFile::num_pages` on the raw bytes: `(file_len - 8) / P`. -/
def bytesNumPages (P : Nat) (bytes : List Nat) : Nat :=
  (bytes.length - HEADER_LEN) / P

/-- `PagedFile::seek`: fails with the not-found error only when
`num_pages < pagenum` (an off-by-one: `pagenum == num_pages` passes and
seeks to end of file). -/
def bytesSeek (P : Nat) (bytes : List Nat) (n : Nat) : Except String Nat :=
  if bytesNumPages P bytes < n then
    .error ("Page " ++ toString n ++ " does not exist. Total pages: "
      ++ toString (bytesNumPages P bytes))
  else .ok (HEADER_LEN + n * P)

/-- `PagedFile::write_page`: seek, then `write_all` of one page
(extending the file if the position is at end of file). -/
def bytesWritePage (P : Nat) (bytes : List Nat) (n : Nat) (page : List Nat) :
    Except String (List Nat) :=
  match bytesSeek P bytes n with
  | .error e => .error e
  | .ok pos => .ok (bytes.take pos ++ page ++ bytes.drop (pos + P))

/-- `PagedFile::read_page`: seek, then `read_exact` of one page. -/
def bytesReadPage (P : Nat) (bytes : List Nat) (n : Nat) : Except String (List Nat) :=
  match bytesSeek P bytes n with
  | .error e => .error e
  | .ok pos =>
    match readExact bytes pos P with
    | none => .error "failed to fill whole buffer"
    | some page => .ok page

/-! ## Claim C8: slot-directory header size -/

/-- C8: the serialized slot-directory header is exactly 12 bytes with an
empty slot sequence and grows by exactly 8 bytes per additional slot
entry: its size is `12 + 8 * slots.len()`. -/
theorem c8_header_size (h : SlotDirectoryHeader) :
    (encodeHdr h).length = 12 + 8 * h.slots_vec.length := by
  rw [length_encodeHdr]
  rfl

/-! ## Claim C6: page-size header round trip -/

instance {e2 a2 : Type} [DecidableEq e2] [DecidableEq a2] : DecidableEq (Except e2 a2) :=
  fun a b =>
    match a, b with
    | .ok x, .ok y =>
        if h : x = y then isTrue (by rw [h]) else isFalse (by intro hc; cases hc; exact h rfl)
    | .error x, .error y =>
        if h : x = y then isTrue (by rw [h]) else isFalse (by intro hc; cases hc; exact h rfl)
    | .ok _, .error _ => isFalse (by intro hc; cases hc)
    | .error _, .ok _ => isFalse (by intro hc; cases hc)

theorem readExact_append_all (l junk : List Nat) (k : Nat) (hk : l.length = k) :
    readExact (l ++ junk) 0 k = some l := by
  unfold readExact
  rw [if_pos (by simp; omega)]
  rw [List.drop_zero]
  subst hk
  exact congrArg some (List.take_left l junk)

/-- C6: `create` with page size `P` then `open` configured with the same
`P` succeeds; `open` configured with any `Q ≠ P` fails and the error
message names both the stored header value and the expected value. -/
theorem c6_header_roundtrip (P Q : Nat) (hP : P < 2 ^ 64) (hQ : Q ≠ P) :
    pfOpenChk (pfCreateBytes P) P = .ok ()
    ∧ pfOpenChk (pfCreateBytes P) Q
        = .error ("Page size mismatch. Header: " ++ toString P
            ++ ", Expected: " ++ toString Q) := by
  have hread : readExact (pfCreateBytes P) 0 8 = some (encLE 8 P) := by
    unfold readExact pfCreateBytes
    rw [if_pos (by simp [length_encLE])]
    simp [List.take_of_length_le, length_encLE]
  have hdec : decLE (encLE 8 P) = P := by
    apply decLE_encLE_of_lt
    have : (256 : Nat) ^ 8 = 2 ^ 64 := by norm_num
    omega
  constructor
  · unfold pfOpenChk
    rw [hread]
    simp [hdec]
  · unfold pfOpenChk
    rw [hread]
    simp only [hdec]
    rw [if_pos (Ne.symm hQ)]

/-- Witness for C6 at `P = 8192`, `Q = 5000` (the repository's own header
mismatch test). -/
theorem c6_header_roundtrip_witness :
    (8192 : Nat) < 2 ^ 64 ∧ (5000 : Nat) ≠ 8192
    ∧ (pfOpenChk (pfCreateBytes 8192) 8192 = .ok ()
       ∧ pfOpenChk (pfCreateBytes 8192) 5000
          = .error ("Page size mismatch. Header: " ++ toString (8192 : Nat)
              ++ ", Expected: " ++ toString (5000 : Nat))) :=
  ⟨by norm_num, by norm_num, c6_header_roundtrip 8192 5000 (by norm_num) (by norm_num)⟩

/-! ## Claim C2: out-of-range page access (code bug) -/

/-- C2 fails on the code: `seek`'s guard is `num_pages < pagenum`, not
`<=`, so on a fresh zero-page file `write_page(0, page)` succeeds and
appends the page (the file grows to one page), instead of failing with a
not-found error and leaving the state unchanged; `read_page(0)` on the
same file fails, but with `read_exact`'s unexpected-EOF error rather
than the not-found error, while `n > num_pages` yields not-found. -/
theorem c2_writePage_at_numPages_appends :
    bytesNumPages 16 (pfCreateBytes 16) = 0
    ∧ bytesWritePage 16 (pfCreateBytes 16) 0 (List.replicate 16 7)
        = .ok (pfCreateBytes 16 ++ List.replicate 16 7)
    ∧ bytesNumPages 16 (pfCreateBytes 16 ++ List.replicate 16 7) = 1
    ∧ bytesReadPage 16 (pfCreateBytes 16) 0
        = .error "failed to fill whole buffer"
    ∧ bytesWritePage 16 (pfCreateBytes 16) 1 (List.replicate 16 7)
        = .error ("Page " ++ toString (1 : Nat) ++ " does not exist. Total pages: "
            ++ toString (0 : Nat)) := by
  refine ⟨by decide, ?_, by decide, by decide, by decide⟩
  unfold bytesWritePage bytesSeek
  rw [if_neg (by decide)]
  decide

/-! ## Claim C3: type mismatch / Varchar overflow panics (code bug) -/

/-- C3 fails on the code: `record_size` does build the typed
`InvalidInput` error for a type mismatch or an over-long Varchar, but
`required_space` immediately `unwrap`s that `Result`, so `insert` panics
before touching any page instead of returning the typed failure. -/
theorem c3_type_mismatch_panics :
    recordSize [⟨"PowerLevel", .real⟩] [("PowerLevel", .int 1)] = .error ()
    ∧ insert (rbfmCreate [⟨"PowerLevel", .real⟩]) [("PowerLevel", .int 1)]
        = .error .panicked
    ∧ recordSize [⟨"A", .varchar 3⟩] [("A", .varchar [97, 97, 97, 97])] = .error ()
    ∧ insert (rbfmCreate [⟨"A", .varchar 3⟩]) [("A", .varchar [97, 97, 97, 97])]
        = .error .panicked :=
  ⟨by decide, rfl, by decide, rfl⟩

/-! ## Claim C10: `read` leaves the file contents unchanged -/

theorem pfReadPage_pages (f : PFile) (n : Nat) :
    ((pfReadPage f n).2).pages = f.pages := by
  unfold pfReadPage
  split
  · rfl
  · split <;> rfl

/-- C10: for every `RecordId`, every fuel bound and every file state,
`RecordBasedFileMgr::read` leaves the page list of the underlying file
(and hence `num_pages` and every page's byte contents) unchanged,
whether it succeeds or fails. Only the file cursor position moves. -/
theorem c10_read_frame (fuel : Nat) :
    ∀ (mgr : Rbfm) (rid : RecordId),
      ((readRec mgr fuel rid).2).pages = mgr.paged_file.pages
      ∧ ((readRec mgr fuel rid).2).pages.length = mgr.paged_file.pages.length := by
  induction fuel with
  | zero => intro mgr rid; exact ⟨rfl, rfl⟩
  | succ fuel ih =>
      intro mgr rid
      have hsuffices : ((readRec mgr (fuel + 1) rid).2).pages = mgr.paged_file.pages := by
        simp only [readRec]
        split
        · rename_i e pf2 heq
          have hpp := pfReadPage_pages mgr.paged_file rid.page_num
          rw [heq] at hpp
          exact hpp
        · rename_i page pf2 heq
          have hpp := pfReadPage_pages mgr.paged_file rid.page_num
          rw [heq] at hpp
          split
          · exact hpp
          · split
            · exact hpp
            · split
              · exact hpp
              · rename_i target hst
                have hih := (ih ⟨pf2, mgr.attributes⟩ target).1
                exact hih.trans hpp
              · split
                · exact hpp
                · exact hpp
      exact ⟨hsuffices, by rw [hsuffices]⟩

/-! ## Fresh-file helper lemmas -/

theorem decodeHdr_initRbPage : decodeHdr initRbPage = some ⟨pageSize, []⟩ :=
  decodeHdr_writeBytes_encodeHdr zeroPage ⟨pageSize, []⟩
    ⟨by norm_num [pageSize], by simp⟩
    (by rw [length_encodeHdr]; norm_num [pageSize, HDR_SIZE, RECORD_ENTRY_SIZE])

theorem freeSpace_init : freeSpace ⟨pageSize, []⟩ = pageSize - HDR_SIZE := by
  unfold freeSpace
  rw [length_encodeHdr]
  norm_num

theorem rbfmCreate_pf (attrs : List Attribute) :
    (rbfmCreate attrs).paged_file = ⟨[initRbPage], HEADER_LEN + pageSize⟩ := by
  simp [rbfmCreate, pfAppendPage]

theorem rbfmCreate_attrs (attrs : List Attribute) :
    (rbfmCreate attrs).attributes = attrs := rfl

theorem pfReadPage_single (p : PageBuf) (pos : Nat) :
    pfReadPage ⟨[p], pos⟩ 0 = (.ok p, ⟨[p], HEADER_LEN + 0 * pageSize + pageSize⟩) := by
  unfold pfReadPage
  rw [if_neg (by simp), dif_pos (by simp)]
  rfl

/-- The insert scan over the single freshly initialized page of a new
file: no page qualifies when the record needs more than the fresh free
space. -/
theorem scan_fresh_notfound (required pos : Nat) (h : pageSize - HDR_SIZE < required) :
    scanPagesAux required (List.range 1) (false, 0) zeroPage ⟨[initRbPage], pos⟩
      = .ok (false, 0, initRbPage, ⟨[initRbPage], HEADER_LEN + 0 * pageSize + pageSize⟩) := by
  have hrange : List.range 1 = [0] := rfl
  rw [hrange]
  simp only [scanPagesAux, pfReadPage_single, decodeHdr_initRbPage]
  rw [freeSpace_init, if_pos h]

/-- The same scan when the record fits: the fresh page is found. -/
theorem scan_fresh_found (required pos : Nat) (h : required ≤ pageSize - HDR_SIZE) :
    scanPagesAux required (List.range 1) (false, 0) zeroPage ⟨[initRbPage], pos⟩
      = .ok (true, 0, initRbPage, ⟨[initRbPage], HEADER_LEN + 0 * pageSize + pageSize⟩) := by
  have hrange : List.range 1 = [0] := rfl
  rw [hrange]
  simp only [scanPagesAux, pfReadPage_single, decodeHdr_initRbPage]
  rw [freeSpace_init, if_neg (by omega)]

/-! ## Claim C9: unchecked `u32` subtraction in `insert` -/

/-- C9: `insert` has no "record too large" check. When no page qualifies
and `required_space` exceeds a fresh page's `data_start_offset`
(`PAGE_SIZE = 8192`), the `u32` subtraction
`data_start_offset - required_space` underflows (wrapping to a huge
value; the subsequent page slicing then panics) instead of producing a
typed error; under the precondition `required_space ≤ data_start_offset`
the subtraction never underflows and equals the exact difference. -/
theorem c9_insert_underflow (attrs : List Attribute) (vals : Record) (rsz : Nat)
    (hsz : recordSize attrs vals = .ok rsz)
    (hbig : pageSize < RECORD_ENTRY_SIZE + rsz)
    (hlt32 : RECORD_ENTRY_SIZE + rsz < 2 ^ 32) :
    insert (rbfmCreate attrs) vals = .error .panicked
    ∧ u32sub pageSize (RECORD_ENTRY_SIZE + rsz)
        = pageSize + (2 ^ 32 - (RECORD_ENTRY_SIZE + rsz))
    ∧ u32sub pageSize (RECORD_ENTRY_SIZE + rsz) ≠ pageSize - (RECORD_ENTRY_SIZE + rsz)
    ∧ (∀ dso : Nat, RECORD_ENTRY_SIZE + rsz ≤ dso → dso < 2 ^ 32 →
        u32sub dso (RECORD_ENTRY_SIZE + rsz) = dso - (RECORD_ENTRY_SIZE + rsz)) := by
  have hwrap : u32sub pageSize (RECORD_ENTRY_SIZE + rsz)
      = pageSize + (2 ^ 32 - (RECORD_ENTRY_SIZE + rsz)) :=
    u32sub_underflow hbig hlt32
  refine ⟨?_, hwrap, ?_, ?_⟩
  · unfold insert
    simp only [rbfmCreate_attrs, rbfmCreate_pf, hsz, List.length_singleton]
    rw [scan_fresh_notfound (RECORD_ENTRY_SIZE + rsz) (HEADER_LEN + pageSize)
      (by simp only [pageSize, HDR_SIZE] at hbig ⊢; omega)]
    simp only [Bool.false_eq_true, if_false, decodeHdr_initRbPage]
    rw [hwrap]
    split
    · rfl
    · rw [if_neg (by simp only [pageSize, RECORD_ENTRY_SIZE] at hbig ⊢; omega)]
  · rw [hwrap]
    simp only [pageSize, RECORD_ENTRY_SIZE] at hbig hlt32 ⊢
    omega
  · intro dso hle hdso
    exact u32sub_no_underflow hle hdso

theorem recordSize_single_varchar (nm : String) (m k c : Nat) (h : k ≤ m) :
    recordSize [⟨nm, .varchar m⟩] [(nm, .varchar (List.replicate k c))]
      = .ok (5 + k) := by
  unfold recordSize recordSizeAux
  have hlk : List.lookup nm [(nm, AttributeValue.varchar (List.replicate k c))]
      = some (.varchar (List.replicate k c)) := by
    simp [List.lookup]
  simp only [hlk]
  simp [attributeTypeMatchesValue, recordSizeAux, nullBitmapLen, Bitmap.bmpSizeInBytes, h]

/-- Witness for C9: a Varchar(9000) attribute with a 9000-byte value
(`record_size = 9005`, `required_space = 9013 > 8192`). -/
theorem c9_insert_underflow_witness :
    recordSize [⟨"A", .varchar 9000⟩] [("A", .varchar (List.replicate 9000 0))]
        = .ok 9005
    ∧ pageSize < RECORD_ENTRY_SIZE + 9005
    ∧ RECORD_ENTRY_SIZE + 9005 < 2 ^ 32
    ∧ (insert (rbfmCreate [⟨"A", .varchar 9000⟩])
          [("A", .varchar (List.replicate 9000 0))] = .error .panicked
       ∧ u32sub pageSize (RECORD_ENTRY_SIZE + 9005)
           = pageSize + (2 ^ 32 - (RECORD_ENTRY_SIZE + 9005))
       ∧ u32sub pageSize (RECORD_ENTRY_SIZE + 9005)
           ≠ pageSize - (RECORD_ENTRY_SIZE + 9005)
       ∧ (∀ dso : Nat, RECORD_ENTRY_SIZE + 9005 ≤ dso → dso < 2 ^ 32 →
           u32sub dso (RECORD_ENTRY_SIZE + 9005)
             = dso - (RECORD_ENTRY_SIZE + 9005))) :=
  ⟨by have := recordSize_single_varchar "A" 9000 9000 0 le_rfl; norm_num at this; exact this,
   by norm_num [pageSize, RECORD_ENTRY_SIZE],
   by norm_num [RECORD_ENTRY_SIZE],
   c9_insert_underflow [⟨"A", .varchar 9000⟩]
     [("A", .varchar (List.replicate 9000 0))] 9005
     (by have := recordSize_single_varchar "A" 9000 9000 0 le_rfl; norm_num at this; exact this)
     (by norm_num [pageSize, RECORD_ENTRY_SIZE])
     (by norm_num [RECORD_ENTRY_SIZE])⟩

/-! ## Claim C7: slot resolution in `read` -/

/-- C7: on an in-range page, `read` fails with an invalid-input error
when `rid.slot_num` is not below the slot count; otherwise it resolves
the slot's overlaid status: `length == 0 && offset == 0` (Dead) fails
with the "record deleted" invalid-data error; `offset < 0` (Moved)
recurses on `RecordId { page_num: length, slot_num: -offset }` with no
cycle bound (the equation holds for every fuel value); otherwise (Valid,
with the byte range inside the page as the Rust slicing requires) it
decodes the bytes `[offset, offset + length)` of that page. -/
theorem c7_read_slot_resolution (mgr : Rbfm) (fuel : Nat) (rid : RecordId)
    (page : PageBuf) (pf2 : PFile) (hdr : SlotDirectoryHeader)
    (hread : pfReadPage mgr.paged_file rid.page_num = (.ok page, pf2))
    (hdec : decodeHdr page = some hdr) :
    (hdr.slots_vec.length ≤ rid.slot_num →
        readRec mgr (fuel + 1) rid = (.error .invalidInput, pf2))
    ∧ (rid.slot_num < hdr.slots_vec.length →
        ((hdr.slots_vec.getD rid.slot_num default).length = 0
            ∧ (hdr.slots_vec.getD rid.slot_num default).offset = 0 →
          readRec mgr (fuel + 1) rid = (.error .recordDeleted, pf2))
        ∧ ((hdr.slots_vec.getD rid.slot_num default).offset < 0 →
          readRec mgr (fuel + 1) rid
            = readRec ⟨pf2, mgr.attributes⟩ fuel
                ⟨(hdr.slots_vec.getD rid.slot_num default).length,
                 (-(hdr.slots_vec.getD rid.slot_num default).offset).toNat⟩)
        ∧ (¬ ((hdr.slots_vec.getD rid.slot_num default).length = 0
              ∧ (hdr.slots_vec.getD rid.slot_num default).offset = 0) →
           0 ≤ (hdr.slots_vec.getD rid.slot_num default).offset →
           (hdr.slots_vec.getD rid.slot_num default).offset.toNat
              + (hdr.slots_vec.getD rid.slot_num default).length ≤ pageSize →
          readRec mgr (fuel + 1) rid
            = (readRecordFromBuf mgr.attributes
                (sliceP page (hdr.slots_vec.getD rid.slot_num default).offset.toNat
                  (hdr.slots_vec.getD rid.slot_num default).length), pf2))) := by
  constructor
  · intro hsl
    simp only [readRec, hread, hdec]
    rw [if_pos hsl]
  · intro hlt
    refine ⟨?_, ?_, ?_⟩
    · intro hdead
      simp only [readRec, hread, hdec]
      rw [if_neg (by omega)]
      have hst : slotStatus (hdr.slots_vec.getD rid.slot_num default) = .dead := by
        unfold slotStatus
        rw [if_pos hdead]
      rw [hst]
    · intro hoff
      simp only [readRec, hread, hdec]
      rw [if_neg (by omega)]
      have hst : slotStatus (hdr.slots_vec.getD rid.slot_num default)
          = .moved ⟨(hdr.slots_vec.getD rid.slot_num default).length,
                    (-(hdr.slots_vec.getD rid.slot_num default).offset).toNat⟩ := by
        unfold slotStatus
        rw [if_neg (by intro hc; omega), if_pos hoff]
      rw [hst]
    · intro hnd hge hbound
      simp only [readRec, hread, hdec]
      rw [if_neg (by omega)]
      have hst : slotStatus (hdr.slots_vec.getD rid.slot_num default) = .valid := by
        unfold slotStatus
        rw [if_neg hnd, if_neg (by omega)]
      rw [hst]
      rw [if_pos hbound]

def c7hdr : SlotDirectoryHeader := ⟨8192, [⟨0, 0⟩, ⟨7, -2⟩, ⟨20, 100⟩]⟩

def c7pg : PageBuf := writeBytes zeroPage 0 (encodeHdr c7hdr)

def c7pf2 : PFile := ⟨[c7pg], HEADER_LEN + 0 * pageSize + pageSize⟩

def c7mgr : Rbfm := ⟨⟨[c7pg], 0⟩, []⟩

/-- Witness for C7 on a one-page file whose directory holds a Dead slot
(slot 0), a Moved slot forwarding to `{page_num: 7, slot_num: 2}`
(slot 1) and a Valid slot over bytes `[100, 120)` (slot 2). -/
theorem c7_read_slot_resolution_witness :
    pfReadPage c7mgr.paged_file 0 = (.ok c7pg, c7pf2)
    ∧ decodeHdr c7pg = some c7hdr
    ∧ readRec c7mgr 3 ⟨0, 0⟩ = (.error .recordDeleted, c7pf2)
    ∧ readRec c7mgr 3 ⟨0, 1⟩ = readRec ⟨c7pf2, c7mgr.attributes⟩ 2 ⟨7, 2⟩
    ∧ readRec c7mgr 3 ⟨0, 3⟩ = (.error .invalidInput, c7pf2)
    ∧ readRec c7mgr 3 ⟨0, 2⟩
        = (readRecordFromBuf c7mgr.attributes (sliceP c7pg 100 20), c7pf2) := by
  have hread : pfReadPage c7mgr.paged_file 0 = (.ok c7pg, c7pf2) := pfReadPage_single c7pg 0
  have hdec : decodeHdr c7pg = some c7hdr := by decide
  have h0 := c7_read_slot_resolution c7mgr 2 ⟨0, 0⟩ c7pg c7pf2 c7hdr hread hdec
  have h1 := c7_read_slot_resolution c7mgr 2 ⟨0, 1⟩ c7pg c7pf2 c7hdr hread hdec
  have h2 := c7_read_slot_resolution c7mgr 2 ⟨0, 2⟩ c7pg c7pf2 c7hdr hread hdec
  have h3 := c7_read_slot_resolution c7mgr 2 ⟨0, 3⟩ c7pg c7pf2 c7hdr hread hdec
  exact ⟨hread, hdec,
    (h0.2 (by decide)).1 (by decide),
    (h1.2 (by decide)).2.1 (by decide),
    h3.1 (by decide),
    (h2.2 (by decide)).2.2 (by decide) (by decide) (by decide)⟩

/-! ## Claim C1 counterexample material -/

theorem writeSlotDirectoryHdr_some (p : PageBuf) (h : SlotDirectoryHeader)
    (hle : (encodeHdr h).length ≤ pageSize) :
    writeSlotDirectoryHdr p h = some (writeBytes p 0 (encodeHdr h)) := by
  unfold writeSlotDirectoryHdr
  rw [if_pos hle]

theorem pfReadPage_ok (f : PFile) (n : Nat) (h : n < f.pages.length) :
    pfReadPage f n
      = (.ok (f.pages.get ⟨n, h⟩), ⟨f.pages, HEADER_LEN + n * pageSize + pageSize⟩) := by
  unfold pfReadPage
  rw [if_neg (by omega), dif_pos h]

theorem writeRecord_single_varchar (nm : String) (m k c : Nat) (h : k ≤ m) :
    writeRecordIntoBuf [⟨nm, .varchar m⟩] [(nm, .varchar (List.replicate k c))]
      = .ok (1 :: 0 :: 1 :: (encLE 2 ((5 + k) % 2 ^ 16) ++ List.replicate k c)) := by
  have hlk : List.lookup nm [(nm, AttributeValue.varchar (List.replicate k c))]
      = some (.varchar (List.replicate k c)) := by
    simp [List.lookup]
  have hen : enumFrom 0 [(⟨nm, .varchar m⟩ : Attribute)] = [(0, ⟨nm, .varchar m⟩)] := rfl
  have hnew : Bitmap.new 1 = (⟨[0], 1⟩ : Bitmap) := by decide
  have hbb : buildBmp [(nm, AttributeValue.varchar (List.replicate k c))]
      [(0, ⟨nm, .varchar m⟩)] ⟨[0], 1⟩ 0 = some (⟨[1], 1⟩, 1) := by
    unfold buildBmp
    simp only [hlk, Option.isSome_some, if_true]
    have hset : Bitmap.bset ⟨[0], 1⟩ 0 = some ⟨[1], 1⟩ := by decide
    rw [hset]
    rfl
  have hnb : nullBitmapLen 1 = 1 := by decide
  have hwv : writeValsAux [(nm, AttributeValue.varchar (List.replicate k c))] ⟨[1], 1⟩
      [(0, ⟨nm, .varchar m⟩)] (2 + 1 + 1 * 2)
      = .ok (List.replicate k c, [(5 + k) % 2 ^ 16]) := by
    unfold writeValsAux
    have hget : Bitmap.bget ⟨[1], 1⟩ 0 = some true := by decide
    rw [hget]
    simp only [hlk]
    rw [if_pos (by simp [attributeTypeMatchesValue, h])]
    have harith : 2 + 1 + 1 * 2 + (List.replicate k c : List Nat).length = 5 + k := by
      simp only [List.length_replicate]
    simp only [encodeValue, writeValsAux, harith, List.append_nil]
  unfold writeRecordIntoBuf
  rw [hen]
  simp only [List.length_singleton, hnew, hbb, hnb, hwv]
  have henc1 : encLE 2 (1 % 2 ^ 16) = [1, 0] := by decide
  rw [henc1]
  simp [List.flatMap_cons]

def c1attrs : List Attribute := [⟨"A", .varchar 8200⟩]

def c1vals : Record := [("A", .varchar (List.replicate 8170 65))]

def c1recBytes : List Nat :=
  1 :: 0 :: 1 :: (encLE 2 ((5 + 8170) % 2 ^ 16) ++ List.replicate 8170 65)

def c1hdr2 : SlotDirectoryHeader := ⟨9, [⟨8183, 9⟩]⟩

def c1page1 : PageBuf := writeBytes initRbPage 0 (encodeHdr c1hdr2)

def c1page2 : PageBuf := writeBytes c1page1 9 c1recBytes

theorem c1recBytes_length : c1recBytes.length = 8175 := by
  unfold c1recBytes
  simp only [List.length_cons, List.length_append, List.length_replicate, length_encLE]

theorem c1_insert_big :
    insert (rbfmCreate c1attrs) c1vals
      = .ok (⟨1, 0⟩, ⟨⟨[initRbPage, c1page2], HEADER_LEN + 1 * pageSize + pageSize⟩,
          c1attrs⟩) := by
  have hsz : recordSize (rbfmCreate c1attrs).attributes c1vals = .ok 8175 := by
    have hr := recordSize_single_varchar "A" 8200 8170 65 (by norm_num)
    rw [show (5 + 8170 : Nat) = 8175 from rfl] at hr
    exact hr
  have hw : writeRecordIntoBuf (rbfmCreate c1attrs).attributes c1vals = .ok c1recBytes :=
    writeRecord_single_varchar "A" 8200 8170 65 (by norm_num)
  unfold insert
  rw [hsz, hw]
  rfl

theorem c1page2_low (i : Nat) (hi : i < 9) : c1page2 i = c1page1 i := by
  show (if 9 ≤ i ∧ i < 9 + c1recBytes.length then c1recBytes.getD (i - 9) 0
        else c1page1 i) = c1page1 i
  rw [if_neg (fun hc => by omega)]

theorem c1page2_rec (i : Nat) (h1 : 9 ≤ i) (h2 : i < 12) :
    c1page2 i = c1recBytes.getD (i - 9) 0 := by
  show (if 9 ≤ i ∧ i < 9 + c1recBytes.length then c1recBytes.getD (i - 9) 0
        else c1page1 i) = c1recBytes.getD (i - 9) 0
  rw [c1recBytes_length, if_pos ⟨h1, by omega⟩]

theorem c1_decode_page2 : decodeHdr c1page2 = none := by
  have hslice : sliceP c1page2 4 8
      = [c1page2 4, c1page2 5, c1page2 6, c1page2 7, c1page2 8,
         c1page2 9, c1page2 10, c1page2 11] := rfl
  have hb4 : c1page2 4 = 1 := by rw [c1page2_low 4 (by norm_num)]; decide
  have hb5 : c1page2 5 = 0 := by rw [c1page2_low 5 (by norm_num)]; decide
  have hb6 : c1page2 6 = 0 := by rw [c1page2_low 6 (by norm_num)]; decide
  have hb7 : c1page2 7 = 0 := by rw [c1page2_low 7 (by norm_num)]; decide
  have hb8 : c1page2 8 = 0 := by rw [c1page2_low 8 (by norm_num)]; decide
  have hb9 : c1page2 9 = 1 := by rw [c1page2_rec 9 (by norm_num) (by norm_num)]; rfl
  have hb10 : c1page2 10 = 0 := by rw [c1page2_rec 10 (by norm_num) (by norm_num)]; rfl
  have hb11 : c1page2 11 = 1 := by rw [c1page2_rec 11 (by norm_num) (by norm_num)]; rfl
  have hcount : decLE (sliceP c1page2 4 8) = 72058693549555713 := by
    rw [hslice, hb4, hb5, hb6, hb7, hb8, hb9, hb10, hb11]
    decide
  unfold decodeHdr
  rw [hcount]
  rw [if_neg (by norm_num [HDR_SIZE, RECORD_ENTRY_SIZE, pageSize])]

theorem readRec_decode_none (mgr : Rbfm) (fuel : Nat) (rid : RecordId)
    (page : PageBuf) (pf2 : PFile)
    (hread : pfReadPage mgr.paged_file rid.page_num = (.ok page, pf2))
    (hdec : decodeHdr page = none) :
    readRec mgr (fuel + 1) rid = (.error .panicked, pf2) := by
  simp only [readRec, hread, hdec]

theorem c1_read_big (pos : Nat) :
    readRec ⟨⟨[initRbPage, c1page2], pos⟩, c1attrs⟩ 1 ⟨1, 0⟩
      = (.error .panicked,
         ⟨[initRbPage, c1page2], HEADER_LEN + 1 * pageSize + pageSize⟩) := by
  have hread : pfReadPage (⟨⟨[initRbPage, c1page2], pos⟩, c1attrs⟩ : Rbfm).paged_file
      (⟨1, 0⟩ : RecordId).page_num
      = (.ok c1page2,
         ⟨[initRbPage, c1page2], HEADER_LEN + 1 * pageSize + pageSize⟩) := by
    rw [pfReadPage_ok ⟨[initRbPage, c1page2], pos⟩ 1 (by simp)]
    rfl
  exact readRec_decode_none _ 0 _ _ _ hread c1_decode_page2

/-- C1 fails on the code: the record below is consistent with its schema
(a Varchar(8200) attribute holding 8170 bytes), `insert` accepts it and
returns `RecordId{1, 0}`, but the record bytes are written at offset 9 and
overwrite part of the freshly appended page's slot-directory header (the
20-byte serialized header of one slot), so `read` of the returned
`RecordId` panics while deserializing the corrupted header instead of
returning a mapping equal to the input. -/
theorem c1_counterexample :
    attributeTypeMatchesValue (AttributeType.varchar 8200)
        (AttributeValue.varchar (List.replicate 8170 65)) = true
    ∧ insert (rbfmCreate c1attrs) c1vals
        = .ok (⟨1, 0⟩, ⟨⟨[initRbPage, c1page2], HEADER_LEN + 1 * pageSize + pageSize⟩,
            c1attrs⟩)
    ∧ (readRec ⟨⟨[initRbPage, c1page2], HEADER_LEN + 1 * pageSize + pageSize⟩, c1attrs⟩
        1 ⟨1, 0⟩).1 = .error .panicked := by
  refine ⟨?_, c1_insert_big, ?_⟩
  · show decide ((List.replicate 8170 (65 : Nat)).length ≤ 8200) = true
    rw [List.length_replicate]
    decide
  · rw [c1_read_big]

/-! ## Claim C4: stale scan buffer in `insert` (code bug) -/

def c4attrs : List Attribute := [⟨"A", .varchar 200⟩]

def c4hdrB : SlotDirectoryHeader := ⟨130, [⟨4, 4⟩, ⟨4, 4⟩, ⟨4, 4⟩]⟩

def c4pageB : PageBuf := writeBytes zeroPage 0 (encodeHdr c4hdrB)

def c4st : Rbfm := ⟨⟨[initRbPage, c4pageB], 0⟩, c4attrs⟩

def c4vals : Record := [("A", .varchar (List.replicate 87 120))]

/-- C4 fails on the code. In the two-page state below, page 0 has an
empty slot directory with 8180 bytes free and page 1 has 3 slots with
only 94 bytes free; the 87-byte record needs `required_space = 100`, so
the last qualifying page is page 0. `insert` does return
`RecordId.page_num = 0`, but the scratch buffer it mutates still holds
page 1 (the last page read by the scan), so what gets written back to
index 0 is a modified copy of page 1: the stored directory ends up with
4 slots and `data_start_offset = 30` (and `slot_num = 3`), not page 0's
own directory with one appended slot (`slot_num = 0`,
`data_start_offset = 8092`). -/
theorem c4_stale_buffer :
    decodeHdr (c4st.paged_file.pages.getD 0 zeroPage) = some ⟨8192, []⟩
    ∧ freeSpace ⟨8192, []⟩ = 8180
    ∧ decodeHdr c4pageB = some c4hdrB
    ∧ freeSpace c4hdrB = 94
    ∧ recordSize c4attrs c4vals = .ok 92
    ∧ (match insert c4st c4vals with
       | .ok (rid, st2) => some (rid.page_num, rid.slot_num,
            (decodeHdr (st2.paged_file.pages.getD 0 zeroPage)).map
              (fun h => (h.data_start_offset, h.slots_vec.length)))
       | .error _ => none)
        = some (0, 3, some (30, 4)) :=
  ⟨by decide, by decide, by decide, by decide, by decide, by decide⟩

/-! ## Claim C5: slot entry bookkeeping on insert -/

/-- C5 fails on the code as stated: with the empty schema, the empty
record encodes to `record_size = 2` bytes, but the successful insert on
a fresh file appends the slot entry `{length: 10, offset: 8182}` and
moves `data_start_offset` from 8192 to 8182 — the entry length and the
decrease are `required_space = record_size + 8`, and the offset is
`8192 - required_space`, not the claimed `record_size` /
`8192 - record_size` (which would be 2 and 8190). The `slot_num = 0`
clause does hold. -/
theorem c5_counterexample :
    recordSize [] [] = .ok 2
    ∧ (match insert (rbfmCreate []) ([] : Record) with
       | .ok (rid, _) => some (rid.page_num, rid.slot_num)
       | .error _ => none)
        = some (0, 0)
    ∧ (match insert (rbfmCreate []) ([] : Record) with
       | .ok (_, st2) => (decodeHdr (st2.paged_file.pages.getD 0 zeroPage)).map
            (fun h => (h.data_start_offset,
              h.slots_vec.map (fun e => (e.length, e.offset))))
       | .error _ => none)
        = some (8182, [(10, (8182 : Int))])
    ∧ (10 : Nat) ≠ 2
    ∧ (8182 : Nat) ≠ 8192 - 2 :=
  ⟨by decide, by decide, by decide, by decide, by decide⟩

/-! ## Generic success-path lemmas for `insert` (claims C5 and C1) -/

theorem getD_set_self {α : Type} (l : List α) (n : Nat) (a d : α) (h : n < l.length) :
    (l.set n a).getD n d = a := by
  rw [List.getD_eq_getElem?_getD, List.getElem?_set_eq_of_lt a h]
  rfl

theorem getD_append_length {α : Type} (l : List α) (a d : α) :
    (l ++ [a]).getD l.length d = a := by
  rw [List.getD_eq_getElem?_getD, List.getElem?_append_right (le_refl _)]
  simp

theorem scanPagesAux_pages_eq (r : Nat) :
    ∀ (is : List Nat) (acc : Bool × Nat) (buf : PageBuf) (pf : PFile)
      (res : Bool × Nat × PageBuf × PFile),
      scanPagesAux r is acc buf pf = .ok res → res.2.2.2.pages = pf.pages := by
  intro is
  induction is with
  | nil =>
      intro acc buf pf res h
      cases h
      rfl
  | cons i rest ih =>
      intro acc buf pf res h
      simp only [scanPagesAux] at h
      split at h
      · cases h
      · rename_i page pf2 heq
        have hpp := pfReadPage_pages pf i
        rw [heq] at hpp
        split at h
        · cases h
        · split at h
          · rw [ih _ _ _ _ h]
            exact hpp
          · rw [ih _ _ _ _ h]
            exact hpp

theorem scanPagesAux_found_lt (r n : Nat) :
    ∀ (is : List Nat) (acc : Bool × Nat) (buf : PageBuf) (pf : PFile)
      (found : Bool) (pnum : Nat) (buf2 : PageBuf) (pf1 : PFile),
      (∀ i ∈ is, i < n) → (acc.1 = true → acc.2 < n) →
      scanPagesAux r is acc buf pf = .ok (found, pnum, buf2, pf1) →
      found = true → pnum < n := by
  intro is
  induction is with
  | nil =>
      intro acc buf pf found pnum buf2 pf1 _ hacc h hf
      cases h
      exact hacc hf
  | cons i rest ih =>
      intro acc buf pf found pnum buf2 pf1 his hacc h hf
      simp only [scanPagesAux] at h
      split at h
      · cases h
      · rename_i page pf2 heq
        split at h
        · cases h
        · split at h
          · exact ih _ _ _ _ _ _ _ (fun j hj => his j (List.mem_cons_of_mem _ hj))
              hacc h hf
          · exact ih _ _ _ _ _ _ _ (fun j hj => his j (List.mem_cons_of_mem _ hj))
              (fun _ => his i (List.mem_cons_self i rest)) h hf

theorem pfWritePage_set (f : PFile) (n : Nat) (p : PageBuf) (h : n < f.pages.length) :
    pfWritePage f n p
      = (.ok (), ⟨f.pages.set n p, HEADER_LEN + n * pageSize + pageSize⟩) := by
  unfold pfWritePage
  rw [if_neg (by omega), if_pos h]

/-- C5, amended: on every successful insert path (the hypotheses spell
out the values produced along it), the slot entry pushed onto the
directory `insert` decoded from its scan buffer has
`length = required_space = record_size + 8` and
`offset = data_start_offset - required_space`, the stored
`data_start_offset` decreases by exactly `required_space`, and the
returned `RecordId.slot_num` is the number of slots in that directory
before the push. -/
theorem c5_slot_entry_amended (mgr : Rbfm) (vals : Record) (rsz : Nat)
    (found : Bool) (pnum : Nat) (buf : PageBuf) (pf1 : PFile)
    (hdr : SlotDirectoryHeader) (recBytes : List Nat)
    (hsz : recordSize mgr.attributes vals = .ok rsz)
    (hscan : scanPagesAux (RECORD_ENTRY_SIZE + rsz)
        (List.range mgr.paged_file.pages.length) (false, 0) zeroPage mgr.paged_file
        = .ok (found, pnum, buf, pf1))
    (hdec : decodeHdr (if found then buf else initRbPage) = some hdr)
    (hdso : hdr.data_start_offset ≤ pageSize)
    (hroom : (encodeHdr hdr).length + RECORD_ENTRY_SIZE + (RECORD_ENTRY_SIZE + rsz)
        ≤ hdr.data_start_offset)
    (hw : writeRecordIntoBuf mgr.attributes vals = .ok recBytes) :
    ∃ st2, insert mgr vals
        = .ok (⟨if found then pnum else mgr.paged_file.pages.length,
                hdr.slots_vec.length⟩, st2)
      ∧ decodeHdr (st2.paged_file.pages.getD
            (if found then pnum else mgr.paged_file.pages.length) zeroPage)
          = some ⟨hdr.data_start_offset - (RECORD_ENTRY_SIZE + rsz),
              hdr.slots_vec ++ [⟨RECORD_ENTRY_SIZE + rsz,
                ((hdr.data_start_offset - (RECORD_ENTRY_SIZE + rsz) : Nat) : Int)⟩]⟩ := by
  have hps : pageSize = 8192 := rfl
  have hhwf := decodeHdr_wf hdec
  have hdso32 : hdr.data_start_offset < 2 ^ 32 := by omega
  have hreq_le : RECORD_ENTRY_SIZE + rsz ≤ hdr.data_start_offset := by
    have := hhwf.2
    omega
  have hso : u32sub hdr.data_start_offset (RECORD_ENTRY_SIZE + rsz)
      = hdr.data_start_offset - (RECORD_ENTRY_SIZE + rsz) :=
    u32sub_no_underflow hreq_le hdso32
  have hsolt : hdr.data_start_offset - (RECORD_ENTRY_SIZE + rsz) < 2 ^ 31 := by omega
  have hoffInt : i32ofU32 (hdr.data_start_offset - (RECORD_ENTRY_SIZE + rsz))
      = ((hdr.data_start_offset - (RECORD_ENTRY_SIZE + rsz) : Nat) : Int) := by
    unfold i32ofU32
    rw [if_pos hsolt]
  have hmod : (RECORD_ENTRY_SIZE + rsz) % 2 ^ 32 = RECORD_ENTRY_SIZE + rsz :=
    Nat.mod_eq_of_lt (by omega)
  have hlen2 : (encodeHdr (⟨hdr.data_start_offset - (RECORD_ENTRY_SIZE + rsz),
      hdr.slots_vec ++ [⟨RECORD_ENTRY_SIZE + rsz,
        ((hdr.data_start_offset - (RECORD_ENTRY_SIZE + rsz) : Nat) : Int)⟩]⟩
        : SlotDirectoryHeader)).length
      = (encodeHdr hdr).length + RECORD_ENTRY_SIZE := by
    rw [length_encodeHdr, length_encodeHdr]
    simp only [List.length_append, List.length_singleton]
    simp only [RECORD_ENTRY_SIZE]
    omega
  have hchk : (encodeHdr (⟨hdr.data_start_offset - (RECORD_ENTRY_SIZE + rsz),
      hdr.slots_vec ++ [⟨RECORD_ENTRY_SIZE + rsz,
        ((hdr.data_start_offset - (RECORD_ENTRY_SIZE + rsz) : Nat) : Int)⟩]⟩
        : SlotDirectoryHeader)).length ≤ pageSize := by
    rw [hlen2]
    omega
  have hchk2 : (encodeHdr (⟨hdr.data_start_offset - (RECORD_ENTRY_SIZE + rsz),
      hdr.slots_vec ++ [⟨RECORD_ENTRY_SIZE + rsz,
        ((hdr.data_start_offset - (RECORD_ENTRY_SIZE + rsz) : Nat) : Int)⟩]⟩
        : SlotDirectoryHeader)).length
      ≤ hdr.data_start_offset - (RECORD_ENTRY_SIZE + rsz) := by
    rw [hlen2]
    omega
  have hwf2 : HdrWf ⟨hdr.data_start_offset - (RECORD_ENTRY_SIZE + rsz),
      hdr.slots_vec ++ [⟨RECORD_ENTRY_SIZE + rsz,
        ((hdr.data_start_offset - (RECORD_ENTRY_SIZE + rsz) : Nat) : Int)⟩]⟩ := by
    constructor
    · show hdr.data_start_offset - (RECORD_ENTRY_SIZE + rsz) < 2 ^ 32
      omega
    · show ∀ e ∈ hdr.slots_vec ++ [(⟨RECORD_ENTRY_SIZE + rsz,
          ((hdr.data_start_offset - (RECORD_ENTRY_SIZE + rsz) : Nat) : Int)⟩
            : SlotDirectoryRecordEntry)], EntryWf e
      intro e he
      rcases List.mem_append.mp he with h1 | h1
      · exact hhwf.1.2 e h1
      · have he2 : e = ⟨RECORD_ENTRY_SIZE + rsz,
            ((hdr.data_start_offset - (RECORD_ENTRY_SIZE + rsz) : Nat) : Int)⟩ := by
          simpa using h1
        subst he2
        refine ⟨?_, ?_, ?_⟩
        · show RECORD_ENTRY_SIZE + rsz < 2 ^ 32
          omega
        · show -(2 ^ 31) ≤ ((hdr.data_start_offset - (RECORD_ENTRY_SIZE + rsz) : Nat) : Int)
          omega
        · show ((hdr.data_start_offset - (RECORD_ENTRY_SIZE + rsz) : Nat) : Int) < 2 ^ 31
          omega
  have hdec2 : ∀ page0 : PageBuf,
      decodeHdr (writeBytes (writeBytes page0 0 (encodeHdr
          ⟨hdr.data_start_offset - (RECORD_ENTRY_SIZE + rsz),
           hdr.slots_vec ++ [⟨RECORD_ENTRY_SIZE + rsz,
             ((hdr.data_start_offset - (RECORD_ENTRY_SIZE + rsz) : Nat) : Int)⟩]⟩))
          (hdr.data_start_offset - (RECORD_ENTRY_SIZE + rsz)) recBytes)
        = some ⟨hdr.data_start_offset - (RECORD_ENTRY_SIZE + rsz),
            hdr.slots_vec ++ [⟨RECORD_ENTRY_SIZE + rsz,
              ((hdr.data_start_offset - (RECORD_ENTRY_SIZE + rsz) : Nat) : Int)⟩]⟩ := by
    intro page0
    exact decodeHdr_writeBytes_frame _ _
      (decodeHdr_writeBytes_encodeHdr page0 _ hwf2 hchk) hchk2
  have hslice : hdr.data_start_offset - (RECORD_ENTRY_SIZE + rsz)
      + (RECORD_ENTRY_SIZE + rsz) ≤ pageSize := by omega
  unfold insert
  rw [hsz]
  cases found with
  | true =>
      have hlt : pnum < mgr.paged_file.pages.length :=
        scanPagesAux_found_lt (RECORD_ENTRY_SIZE + rsz) mgr.paged_file.pages.length
          (List.range mgr.paged_file.pages.length) (false, 0) zeroPage mgr.paged_file
          true pnum buf pf1 (fun i hi => List.mem_range.mp hi) (by intro h; cases h)
          hscan rfl
      have hpe : pf1.pages = mgr.paged_file.pages :=
        scanPagesAux_pages_eq (RECORD_ENTRY_SIZE + rsz)
          (List.range mgr.paged_file.pages.length) (false, 0) zeroPage mgr.paged_file
          (true, pnum, buf, pf1) hscan
      simp only [if_true] at hdec
      simp only [hscan, hdec, hso, hmod, hoffInt, if_true]
      simp only [writeSlotDirectoryHdr_some buf _ hchk, hslice, if_true, hw]
      rw [pfWritePage_set pf1 pnum _ (by rw [hpe]; exact hlt)]
      refine ⟨_, rfl, ?_⟩
      show decodeHdr ((pf1.pages.set pnum _).getD pnum zeroPage) = _
      rw [getD_set_self _ _ _ _ (by rw [hpe]; exact hlt)]
      exact hdec2 buf
  | false =>
      have hpe : pf1.pages = mgr.paged_file.pages :=
        scanPagesAux_pages_eq (RECORD_ENTRY_SIZE + rsz)
          (List.range mgr.paged_file.pages.length) (false, 0) zeroPage mgr.paged_file
          (false, pnum, buf, pf1) hscan
      simp only [Bool.false_eq_true, if_false] at hdec
      simp only [hscan, hdec, hso, hmod, hoffInt, if_false, Bool.false_eq_true]
      simp only [writeSlotDirectoryHdr_some initRbPage _ hchk, hslice, if_true, hw]
      refine ⟨_, rfl, ?_⟩
      show decodeHdr (((pfAppendPage pf1 _).pages).getD mgr.paged_file.pages.length zeroPage)
        = _
      simp only [pfAppendPage]
      have hlenp : pf1.pages.length = mgr.paged_file.pages.length := by rw [hpe]
      rw [← hlenp, getD_append_length]
      exact hdec2 initRbPage

/-- Witness for the amended C5: the empty record inserted into a fresh
file (empty schema): `record_size = 2`, `required_space = 10`, the
stored entry is `{length: 10, offset: 8182}` and `data_start_offset`
becomes `8182 = 8192 - 10`. -/
theorem c5_slot_entry_amended_witness :
    recordSize (rbfmCreate []).attributes ([] : Record) = .ok 2
    ∧ writeRecordIntoBuf (rbfmCreate []).attributes ([] : Record) = .ok [0, 0]
    ∧ ∃ st2, insert (rbfmCreate []) ([] : Record) = .ok (⟨0, 0⟩, st2)
        ∧ decodeHdr (st2.paged_file.pages.getD 0 zeroPage)
            = some ⟨8182, [⟨10, (8182 : Int)⟩]⟩ := by
  refine ⟨by decide, by decide, ?_⟩
  have h := c5_slot_entry_amended (rbfmCreate []) [] 2 true 0 initRbPage
    ⟨[initRbPage], HEADER_LEN + 0 * pageSize + pageSize⟩ ⟨8192, []⟩ [0, 0]
    (by decide)
    (scan_fresh_found (RECORD_ENTRY_SIZE + 2) (HEADER_LEN + pageSize) (by decide))
    (by decide) (by decide) (by decide) (by decide)
  obtain ⟨st2, h1, h2⟩ := h
  exact ⟨st2, h1, h2⟩

/-! ## Bitmap characterization (claim C1) -/

theorem and_pow_decide (x i : Nat) : decide (x &&& 2 ^ i ≠ 0) = x.testBit i := by
  rw [Nat.and_two_pow]
  rcases h : x.testBit i
  · simp
  · simp

theorem bget_eq_testBit (b : Bitmap) (idx : Nat) (h : idx < b.size) :
    b.bget idx = some ((b.bmp.getD (idx / 8) 0).testBit (idx % 8)) := by
  unfold Bitmap.bget
  rw [if_neg (by omega)]
  rw [and_pow_decide]

theorem bset_some (b : Bitmap) (idx : Nat) (h : idx < b.size) :
    b.bset idx = some ⟨b.bmp.set (idx / 8) (b.bmp.getD (idx / 8) 0 ||| 2 ^ (idx % 8)),
      b.size⟩ := by
  unfold Bitmap.bset
  rw [if_neg (by omega)]

theorem bget_bset_self (b : Bitmap) (idx : Nat) (hsz : idx < b.size)
    (hlen : idx / 8 < b.bmp.length) :
    (⟨b.bmp.set (idx / 8) (b.bmp.getD (idx / 8) 0 ||| 2 ^ (idx % 8)), b.size⟩
      : Bitmap).bget idx = some true := by
  rw [bget_eq_testBit _ _ (by exact hsz)]
  congr 1
  show ((b.bmp.set (idx / 8) _).getD (idx / 8) 0).testBit (idx % 8) = true
  rw [getD_set_self _ _ _ _ hlen]
  rw [Nat.testBit_lor, Nat.testBit_two_pow_self]
  simp

theorem getD_set_ne {α : Type} (l : List α) (n j : Nat) (a d : α) (hne : j ≠ n) :
    (l.set n a).getD j d = l.getD j d := by
  rw [List.getD_eq_getElem?_getD, List.getD_eq_getElem?_getD, List.getElem?_set_ne]
  omega

theorem bget_bset_ne (b : Bitmap) (idx j : Nat) (hne : j ≠ idx) :
    (⟨b.bmp.set (idx / 8) (b.bmp.getD (idx / 8) 0 ||| 2 ^ (idx % 8)), b.size⟩
      : Bitmap).bget j = b.bget j := by
  by_cases hj : j ≥ b.size
  · unfold Bitmap.bget
    rw [if_pos (by exact hj), if_pos (by exact hj)]
  · rw [bget_eq_testBit _ _ (by simp at hj ⊢; omega),
        bget_eq_testBit _ _ (by omega)]
    congr 1
    show ((b.bmp.set (idx / 8) _).getD (j / 8) 0).testBit (j % 8)
      = (b.bmp.getD (j / 8) 0).testBit (j % 8)
    by_cases hbyte : j / 8 = idx / 8
    · rcases lt_or_le (idx / 8) b.bmp.length with hlt | hge
      · rw [hbyte, getD_set_self _ _ _ _ hlt]
        have hbit : idx % 8 ≠ j % 8 := by omega
        rw [Nat.testBit_lor, Nat.testBit_two_pow_of_ne hbit]
        simp
      · rw [List.set_eq_of_length_le hge]
    · rw [getD_set_ne _ _ _ _ _ hbyte]

theorem mem_enumFrom {α : Type} :
    ∀ (l : List α) (k i : Nat) (a : α), (i, a) ∈ enumFrom k l → k ≤ i ∧ i < k + l.length
  | [], _, _, _, h => absurd h (List.not_mem_nil _)
  | b :: rest, k, i, a, h => by
    rcases List.mem_cons.mp h with h1 | h2
    · injection h1 with h1a h1b
      subst h1a
      simp
    · have := mem_enumFrom rest (k + 1) i a h2
      simp
      omega

/-- Count of record-present attributes in a schema suffix (the number of bitmap
bits `build_null_bitmap` sets). -/
def countPresent (vals : Record) (attrs2 : List Attribute) : Nat :=
  (attrs2.filter (fun a => (List.lookup a.name vals).isSome)).length

/-- Count of set bits of `bmp` over an index list (the number of headers
`read_record` expects). -/
def setCount (bmp : Bitmap) : List Nat → Nat
  | [] => 0
  | i :: rest => (if (bmp.bget i).getD false then 1 else 0) + setCount bmp rest

theorem div8_lt_sizeInBytes (idx size : Nat) (h : idx < size) :
    idx / 8 < Bitmap.bmpSizeInBytes size := by
  unfold Bitmap.bmpSizeInBytes
  dsimp only
  split <;> omega

theorem buildBmp_spec (vals : Record) :
    ∀ (attrs2 : List Attribute) (k : Nat) (b : Bitmap) (cnt : Nat),
      k + attrs2.length ≤ b.size →
      Bitmap.bmpSizeInBytes b.size = b.bmp.length →
      ∃ b2 cnt2, buildBmp vals (enumFrom k attrs2) b cnt = some (b2, cnt2)
        ∧ b2.size = b.size ∧ b2.bmp.length = b.bmp.length
        ∧ (∀ j, j < k → b2.bget j = b.bget j)
        ∧ (∀ (i : Nat) (a : Attribute), (i, a) ∈ enumFrom k attrs2 →
            b.bget i = some false →
            b2.bget i = some ((List.lookup a.name vals).isSome))
        ∧ cnt2 = cnt + countPresent vals attrs2 := by
  intro attrs2
  induction attrs2 with
  | nil =>
    intro k b cnt _ _
    exact ⟨b, cnt, rfl, rfl, rfl, fun _ _ => rfl, fun i a h => absurd h (List.not_mem_nil _),
      by simp [countPresent]⟩
  | cons a rest ih =>
    intro k b cnt hsz hlen
    simp only [List.length_cons] at hsz
    show ∃ b2 cnt2, buildBmp vals ((k, a) :: enumFrom (k + 1) rest) b cnt = some (b2, cnt2) ∧ _
    have hrfl : buildBmp vals ((k, a) :: enumFrom (k + 1) rest) b cnt
        = if (List.lookup a.name vals).isSome then
            (match b.bset k with
              | none => none
              | some bmp2 => buildBmp vals (enumFrom (k + 1) rest) bmp2 (cnt + 1))
          else buildBmp vals (enumFrom (k + 1) rest) b cnt := rfl
    rcases hp : (List.lookup a.name vals).isSome with hfalse | htrue
    · rw [show buildBmp vals ((k, a) :: enumFrom (k + 1) rest) b cnt
          = buildBmp vals (enumFrom (k + 1) rest) b cnt by
        rw [hrfl, hp]
        simp]
      obtain ⟨b2, cnt2, heq, hsz2, hlen2, hlow, hset, hcnt⟩ :=
        ih (k + 1) b cnt (by omega) hlen
      refine ⟨b2, cnt2, heq, hsz2, hlen2, fun j hj => hlow j (by omega), ?_, ?_⟩
      · intro i a2 hmem h0
        rcases List.mem_cons.mp hmem with h1 | h2
        · injection h1 with h1a h1b
          subst h1a h1b
          rw [hlow i (by omega), h0, hp]
        · exact hset i a2 h2 h0
      · rw [hcnt]
        simp [countPresent, List.filter, hp]
    · have hk : k < b.size := by omega
      have hbs := bset_some b k hk
      set b1 : Bitmap := ⟨b.bmp.set (k / 8) (b.bmp.getD (k / 8) 0 ||| 2 ^ (k % 8)), b.size⟩
        with hb1
      rw [show buildBmp vals ((k, a) :: enumFrom (k + 1) rest) b cnt
          = buildBmp vals (enumFrom (k + 1) rest) b1 (cnt + 1) by
        rw [hrfl, hp]
        simp [hbs, hb1]]
      have hlen1 : b1.bmp.length = b.bmp.length := by
        rw [hb1]
        simp
      obtain ⟨b2, cnt2, heq, hsz2, hlen2, hlow, hset, hcnt⟩ :=
        ih (k + 1) b1 (cnt + 1) (by rw [hb1]; simpa using (by omega : k + 1 + rest.length ≤ b.size))
          (by rw [hlen1, hb1]; simpa using hlen)
      refine ⟨b2, cnt2, heq, by rw [hsz2], by rw [hlen2, hlen1],
        fun j hj => ?_, ?_, ?_⟩
      · rw [hlow j (by omega), hb1, bget_bset_ne b k j (by omega)]
      · intro i a2 hmem h0
        rcases List.mem_cons.mp hmem with h1 | h2
        · injection h1 with h1a h1b
          subst h1a h1b
          rw [hlow i (by omega), hb1, hp]
          exact bget_bset_self b i hk
            (by rw [← hlen]; exact div8_lt_sizeInBytes i b.size hk)
        · have hi := mem_enumFrom rest (k + 1) i a2 h2
          refine hset i a2 h2 ?_
          rw [hb1, bget_bset_ne b k i (by omega), h0]
      · rw [hcnt]
        simp [countPresent, List.filter, hp]
        omega

/-! ## Record codec round trip (claim C1) -/

theorem mem_of_lookup {β : Type} :
    ∀ (l : List (String × β)) (s : String) (v : β),
      List.lookup s l = some v → (s, v) ∈ l
  | [], _, _, h => by simp [List.lookup] at h
  | (k, w) :: t, s, v, h => by
    rw [List.lookup] at h
    rcases hk : s == k with hf | ht
    · rw [hk] at h
      exact List.mem_cons_of_mem _ (mem_of_lookup t s v h)
    · rw [hk] at h
      injection h with hv
      subst hv
      rw [eq_of_beq hk]
      exact List.mem_cons_self _ _

theorem readExact_initSeg (buf data tail : List Nat) (pos k : Nat)
    (hbuf : buf.drop pos = data ++ tail) (hpos : pos ≤ buf.length)
    (hk : k ≤ data.length) :
    readExact buf pos k = some (data.take k) := by
  have hlen : buf.length - pos = data.length + tail.length := by
    have h := congrArg List.length hbuf
    simp only [List.length_drop, List.length_append] at h
    exact h
  unfold readExact
  rw [if_pos (by omega), hbuf, List.take_append_of_le_length hk]

theorem drop_pos_add (buf : List Nat) (pos k : Nat) :
    buf.drop (pos + k) = (buf.drop pos).drop k := by
  rw [List.drop_drop, Nat.add_comm]

/-- Value-range side conditions needed for a lossless decode: `i32` in
range, `f64` bit pattern below `2^64`. -/
def ValueWf : AttributeValue → Bool
  | .int v => decide (-(2 ^ 31) ≤ v) && decide (v < 2 ^ 31)
  | .real bits => decide (bits < 2 ^ 64)
  | .varchar _ => true

theorem readHdrs_ok (bmp : Bitmap) (buf : List Nat) :
    ∀ (is : List Nat) (hs tail : List Nat) (pos : Nat),
      (∀ i ∈ is, ∃ bv, bmp.bget i = some bv) →
      setCount bmp is = hs.length →
      (∀ h ∈ hs, h < 2 ^ 16) →
      buf.drop pos = hs.flatMap (encLE 2) ++ tail →
      pos ≤ buf.length →
      readHdrs bmp buf is pos = .ok (hs, pos + 2 * hs.length) := by
  intro is
  induction is with
  | nil =>
    intro hs tail pos _ hcnt _ _ _
    have h0 : hs = [] := List.length_eq_zero.mp (by
      rw [← hcnt]
      rfl)
    subst h0
    rfl
  | cons i rest ih =>
    intro hs tail pos hdef hcnt hlt htail hpos
    obtain ⟨bv, hbv⟩ := hdef i (List.mem_cons_self _ _)
    show (match bmp.bget i with
      | none => Except.error RdErr.panicked
      | some false => readHdrs bmp buf rest pos
      | some true =>
        match readExact buf pos 2 with
        | none => Except.error RdErr.eofRead
        | some bs =>
          match readHdrs bmp buf rest (pos + 2) with
          | .error e => Except.error e
          | .ok (hs, pos2) => Except.ok (decLE bs :: hs, pos2)) = _
    rcases bv with hf | ht
    · rw [hbv]
      refine ih hs tail pos (fun j hj => hdef j (List.mem_cons_of_mem _ hj)) ?_ hlt htail hpos
      have hstep : setCount bmp (i :: rest) = setCount bmp rest := by
        show (if (bmp.bget i).getD false then 1 else 0) + setCount bmp rest
          = setCount bmp rest
        rw [hbv]
        simp
      rw [← hstep]
      exact hcnt
    · rw [hbv]
      have hcnt1 : 1 + setCount bmp rest = hs.length := by
        rw [← hcnt]
        show _ = setCount bmp (i :: rest)
        show _ = (if (bmp.bget i).getD false then 1 else 0) + setCount bmp rest
        rw [hbv]
        simp
      rcases hs with _ | ⟨h0, hs'⟩
      · simp at hcnt1
      · have hflat : (h0 :: hs').flatMap (encLE 2) = encLE 2 h0 ++ hs'.flatMap (encLE 2) := by
          simp
        rw [hflat] at htail
        have hlen2 : (encLE 2 h0).length = 2 := length_encLE 2 h0
        have hre : readExact buf pos 2 = some (encLE 2 h0) := by
          rw [readExact_initSeg buf (encLE 2 h0) (hs'.flatMap (encLE 2) ++ tail) pos 2
            (by rw [htail, List.append_assoc]) hpos (by rw [hlen2])]
          rw [List.take_of_length_le (by rw [hlen2])]
        rw [hre]
        have hlendrop : buf.length - pos = 2 + (hs'.flatMap (encLE 2) ++ tail).length := by
          have h := congrArg List.length htail
          simp only [List.length_drop, List.length_append, hlen2] at h
          simp only [List.length_append]
          omega
        have hrec : readHdrs bmp buf rest (pos + 2) = .ok (hs', pos + 2 + 2 * hs'.length) := by
          refine ih hs' tail (pos + 2) (fun j hj => hdef j (List.mem_cons_of_mem _ hj)) (by
            have := hcnt1
            simp at this ⊢
            omega) (fun h hh => hlt h (List.mem_cons_of_mem _ hh)) ?_ (by omega)
          rw [drop_pos_add, htail, List.append_assoc, List.drop_left' hlen2]
        rw [hrec]
        show Except.ok (decLE (encLE 2 h0) :: hs', pos + 2 + 2 * hs'.length) = _
        rw [decLE_encLE_of_lt (by
          have := hlt h0 (List.mem_cons_self _ _)
          norm_num
          omega)]
        have harith : pos + 2 + 2 * hs'.length = pos + 2 * (h0 :: hs').length := by
          simp
          omega
        rw [harith]

theorem setCount_cons (bmp : Bitmap) (i : Nat) (is : List Nat) :
    setCount bmp (i :: is)
      = (if (bmp.bget i).getD false then 1 else 0) + setCount bmp is := rfl

theorem countPresent_cons (vals : Record) (a : Attribute) (rest : List Attribute) :
    countPresent vals (a :: rest)
      = (if (List.lookup a.name vals).isSome then 1 else 0) + countPresent vals rest := by
  rcases h : (List.lookup a.name vals).isSome with hf | ht
  · simp [countPresent, List.filter_cons, h]
  · simp [countPresent, List.filter_cons, h]
    omega

theorem map_fst_enumFrom {α : Type} :
    ∀ (l : List α) (k : Nat), (enumFrom k l).map Prod.fst = List.range' k l.length
  | [], _ => rfl
  | a :: rest, k => by
    show k :: (enumFrom (k + 1) rest).map Prod.fst = List.range' k (rest.length + 1)
    rw [map_fst_enumFrom rest (k + 1), List.range'_succ]

theorem setCount_eq_countPresent (vals : Record) (bmp : Bitmap) :
    ∀ (attrs2 : List Attribute) (k : Nat),
      (∀ (i : Nat) (a : Attribute), (i, a) ∈ enumFrom k attrs2 →
        bmp.bget i = some ((List.lookup a.name vals).isSome)) →
      setCount bmp ((enumFrom k attrs2).map Prod.fst) = countPresent vals attrs2
  | [], _, _ => rfl
  | a :: rest, k, hchar => by
    show setCount bmp (k :: (enumFrom (k + 1) rest).map Prod.fst) = _
    rw [setCount_cons, countPresent_cons,
      setCount_eq_countPresent vals bmp rest (k + 1)
        (fun i a2 hm => hchar i a2 (List.mem_cons_of_mem _ hm)),
      hchar k a (List.mem_cons_self _ _)]
    rcases (List.lookup a.name vals).isSome <;> simp

/-- Encoded byte size of a single value (the `match` in `record_size`). -/
def valSize : AttributeValue → Nat
  | .int _ => 4
  | .real _ => 8
  | .varchar s => s.length

theorem encodeValue_length (v : AttributeValue) :
    (encodeValue v).length = valSize v := by
  rcases v with v | b | s
  · exact length_encLE 4 _
  · exact length_encLE 8 _
  · rfl

theorem writeValsAux_cons (vals : Record) (bmp : Bitmap) (i : Nat) (a : Attribute)
    (rest : List (Nat × Attribute)) (dOff : Nat) :
    writeValsAux vals bmp ((i, a) :: rest) dOff
      = (match bmp.bget i with
        | none => Except.error WErr.panicked
        | some false => writeValsAux vals bmp rest dOff
        | some true =>
          match List.lookup a.name vals with
          | none => Except.error WErr.panicked
          | some v =>
            if attributeTypeMatchesValue a.attribute_type v then
              match writeValsAux vals bmp rest (dOff + (encodeValue v).length) with
              | .error e => Except.error e
              | .ok (data, hdrs) =>
                  Except.ok (encodeValue v ++ data,
                    (dOff + (encodeValue v).length) % 2 ^ 16 :: hdrs)
            else Except.error WErr.typeMismatch) := rfl

theorem writeValsAux_hdrs (vals : Record) (bmp : Bitmap) :
    ∀ (en : List (Nat × Attribute)) (dOff : Nat) (data hdrs : List Nat),
      writeValsAux vals bmp en dOff = .ok (data, hdrs) →
      hdrs.length = setCount bmp (en.map Prod.fst) ∧ (∀ h ∈ hdrs, h < 2 ^ 16) := by
  intro en
  induction en with
  | nil =>
    intro dOff data hdrs h
    injection h with h2
    injection h2 with _ hh
    subst hh
    exact ⟨rfl, fun h hm => absurd hm (List.not_mem_nil _)⟩
  | cons p rest ih =>
    rcases p with ⟨i, a⟩
    intro dOff data hdrs h
    rw [writeValsAux_cons] at h
    show _ = setCount bmp (i :: rest.map Prod.fst) ∧ _
    rw [setCount_cons]
    rcases hbv : bmp.bget i with _ | bv
    · rw [hbv] at h
      exact absurd h (by simp)
    · rw [hbv] at h
      rcases bv with hf | ht
      · obtain ⟨h1, h2⟩ := ih dOff data hdrs h
        refine ⟨?_, h2⟩
        rw [h1]
        simp
      · rcases hlk : List.lookup a.name vals with _ | v
        · rw [hlk] at h
          exact absurd h (by simp)
        · rw [hlk] at h
          have h' : (if attributeTypeMatchesValue a.attribute_type v then
              (match writeValsAux vals bmp rest (dOff + (encodeValue v).length) with
                | .error e => Except.error e
                | .ok (data, hdrs) =>
                    Except.ok (encodeValue v ++ data,
                      (dOff + (encodeValue v).length) % 2 ^ 16 :: hdrs))
            else Except.error WErr.typeMismatch) = Except.ok (data, hdrs) := h
          rcases htm : attributeTypeMatchesValue a.attribute_type v with hf2 | ht2
          · rw [htm] at h'
            simp at h'
          · rw [htm, if_pos rfl] at h'
            rcases heq2 : writeValsAux vals bmp rest (dOff + (encodeValue v).length)
              with e | pr
            · rw [heq2] at h'
              simp at h'
            · rcases pr with ⟨data', hdrs'⟩
              rw [heq2] at h'
              have h3 : (Except.ok (encodeValue v ++ data',
                  (dOff + (encodeValue v).length) % 2 ^ 16 :: hdrs')
                    : Except WErr (List Nat × List Nat)) = Except.ok (data, hdrs) := h'
              injection h3 with h4
              injection h4 with hd hh
              subst hd hh
              obtain ⟨h1, h2⟩ := ih _ _ _ heq2
              refine ⟨?_, ?_⟩
              · rw [List.length_cons, h1]
                simp
                omega
              · intro x hx
                rcases List.mem_cons.mp hx with hx1 | hx2
                · subst hx1
                  exact Nat.mod_lt _ (by norm_num)
                · exact h2 x hx2

theorem recordSizeAux_cons (vals : Record) (a : Attribute) (rest : List Attribute) :
    recordSizeAux vals (a :: rest)
      = (match List.lookup a.name vals with
        | none => recordSizeAux vals rest
        | some v =>
          if attributeTypeMatchesValue a.attribute_type v then
            match recordSizeAux vals rest with
            | .error e => Except.error e
            | .ok (oh, dl) => Except.ok (oh + 2, dl + valSize v)
          else Except.error ()) := rfl

theorem writeValsAux_sizes (vals : Record) (bmp : Bitmap) :
    ∀ (attrs2 : List Attribute) (k dOff oh dl : Nat) (data hdrs : List Nat),
      (∀ (i : Nat) (a : Attribute), (i, a) ∈ enumFrom k attrs2 →
        bmp.bget i = some ((List.lookup a.name vals).isSome)) →
      recordSizeAux vals attrs2 = .ok (oh, dl) →
      writeValsAux vals bmp (enumFrom k attrs2) dOff = .ok (data, hdrs) →
      data.length = dl ∧ oh = 2 * hdrs.length := by
  intro attrs2
  induction attrs2 with
  | nil =>
    intro k dOff oh dl data hdrs _ hrs hw
    injection hrs with h1
    injection h1 with hoh hdl
    injection hw with h2
    injection h2 with hd hh
    subst hoh hdl
    rw [← hd, ← hh]
    exact ⟨rfl, rfl⟩
  | cons a rest ih =>
    intro k dOff oh dl data hdrs hchar hrs hw
    have hbg := hchar k a (List.mem_cons_self _ _)
    have hchar2 : ∀ (i : Nat) (a2 : Attribute), (i, a2) ∈ enumFrom (k + 1) rest →
        bmp.bget i = some ((List.lookup a2.name vals).isSome) :=
      fun i a2 hm => hchar i a2 (List.mem_cons_of_mem _ hm)
    rw [recordSizeAux_cons] at hrs
    have hw2 : writeValsAux vals bmp ((k, a) :: enumFrom (k + 1) rest) dOff
        = .ok (data, hdrs) := hw
    rw [writeValsAux_cons] at hw2
    rcases hlk : List.lookup a.name vals with _ | v
    · rw [hlk] at hrs hw2 hbg
      simp only [Option.isSome_none] at hbg
      rw [hbg] at hw2
      exact ih (k + 1) dOff oh dl data hdrs hchar2 hrs hw2
    · rw [hlk] at hrs hw2 hbg
      simp only [Option.isSome_some] at hbg
      rw [hbg] at hw2
      have hrs2 : (if attributeTypeMatchesValue a.attribute_type v then
          (match recordSizeAux vals rest with
            | .error e => Except.error e
            | .ok (oh, dl) => Except.ok (oh + 2, dl + valSize v))
          else Except.error ()) = Except.ok (oh, dl) := hrs
      have hw3 : (if attributeTypeMatchesValue a.attribute_type v then
          (match writeValsAux vals bmp (enumFrom (k + 1) rest)
              (dOff + (encodeValue v).length) with
            | .error e => Except.error e
            | .ok (data, hdrs) =>
                Except.ok (encodeValue v ++ data,
                  (dOff + (encodeValue v).length) % 2 ^ 16 :: hdrs))
          else Except.error WErr.typeMismatch) = Except.ok (data, hdrs) := hw2
      rcases htm : attributeTypeMatchesValue a.attribute_type v with hf | ht
      · rw [htm] at hrs2
        simp at hrs2
      · rw [htm, if_pos rfl] at hrs2 hw3
        rcases hra : recordSizeAux vals rest with e | pr
        · rw [hra] at hrs2
          simp at hrs2
        · rcases pr with ⟨oh', dl'⟩
          rw [hra] at hrs2
          have hrs3 : (Except.ok (oh' + 2, dl' + valSize v) : Except Unit (Nat × Nat))
              = Except.ok (oh, dl) := hrs2
          injection hrs3 with h1
          injection h1 with hoh hdl
          rcases hwa : writeValsAux vals bmp (enumFrom (k + 1) rest)
              (dOff + (encodeValue v).length) with e | pr2
          · rw [hwa] at hw3
            simp at hw3
          · rcases pr2 with ⟨data', hdrs'⟩
            rw [hwa] at hw3
            have hw4 : (Except.ok (encodeValue v ++ data',
                (dOff + (encodeValue v).length) % 2 ^ 16 :: hdrs')
                  : Except WErr (List Nat × List Nat)) = Except.ok (data, hdrs) := hw3
            injection hw4 with h2
            injection h2 with hd hh
            obtain ⟨ihd, ihh⟩ := ih (k + 1) (dOff + (encodeValue v).length) oh' dl'
              data' hdrs' hchar2 hra hwa
            constructor
            · rw [← hd, List.length_append, ihd, ← hdl, ← encodeValue_length v]
              omega
            · rw [← hh, List.length_cons, ← hoh]
              omega

/-- The schema-ordered list of attributes present in the record with their
values: what both the claim and the decoder agree a round trip returns. -/
def presentVals (attrs : List Attribute) (vals : Record) : Record :=
  attrs.filterMap (fun a => (List.lookup a.name vals).map (fun v => (a.name, v)))

theorem presentVals_cons_none (attrs : List Attribute) (vals : Record) (a : Attribute)
    (h : List.lookup a.name vals = none) :
    presentVals (a :: attrs) vals = presentVals attrs vals := by
  simp [presentVals, List.filterMap_cons, h]

theorem presentVals_cons_some (attrs : List Attribute) (vals : Record) (a : Attribute)
    (v : AttributeValue) (h : List.lookup a.name vals = some v) :
    presentVals (a :: attrs) vals = (a.name, v) :: presentVals attrs vals := by
  simp [presentVals, List.filterMap_cons, h]

theorem readValsAux_cons (buf : List Nat) (bmp : Bitmap) (hdrs : List Nat) (i : Nat)
    (a : Attribute) (rest : List (Nat × Attribute)) (oidx pos : Nat) :
    readValsAux buf bmp hdrs ((i, a) :: rest) oidx pos
      = (match bmp.bget i with
        | none => Except.error RdErr.panicked
        | some false => readValsAux buf bmp hdrs rest oidx pos
        | some true =>
          match a.attribute_type with
          | .int =>
            match readExact buf pos 4 with
            | none => Except.error RdErr.eofRead
            | some bs =>
              match readValsAux buf bmp hdrs rest (oidx + 1) (pos + 4) with
              | .error e => Except.error e
              | .ok r => Except.ok ((a.name, .int (decI32 bs)) :: r)
          | .real =>
            match readExact buf pos 8 with
            | none => Except.error RdErr.eofRead
            | some bs =>
              match readValsAux buf bmp hdrs rest (oidx + 1) (pos + 8) with
              | .error e => Except.error e
              | .ok r => Except.ok ((a.name, .real (decLE bs)) :: r)
          | .varchar maxLen =>
            match hdrs.get? oidx with
            | none => Except.error RdErr.panicked
            | some endO =>
              if endO < pos then Except.error RdErr.panicked
              else
                if maxLen < endO - pos then Except.error RdErr.varcharTooLong
                else
                  match readExact buf pos (endO - pos) with
                  | none => Except.error RdErr.eofRead
                  | some bs =>
                    match readValsAux buf bmp hdrs rest (oidx + 1) (pos + (endO - pos)) with
                    | .error e => Except.error e
                    | .ok r => Except.ok ((a.name, .varchar bs) :: r)) := rfl

theorem readExact_exact (buf seg rest tail : List Nat) (pos : Nat)
    (hbuf : buf.drop pos = (seg ++ rest) ++ tail) (hpos : pos ≤ buf.length) :
    readExact buf pos seg.length = some seg := by
  rw [readExact_initSeg buf (seg ++ rest) tail pos seg.length hbuf hpos (by simp),
    List.take_append_of_le_length (le_refl _), List.take_of_length_le (le_refl _)]

theorem drop_after_seg (buf seg rest tail : List Nat) (pos : Nat)
    (hbuf : buf.drop pos = (seg ++ rest) ++ tail) :
    buf.drop (pos + seg.length) = rest ++ tail := by
  rw [drop_pos_add, hbuf, List.append_assoc, List.drop_left]

theorem readValsAux_spec (vals : Record) (bmp : Bitmap) (buf : List Nat)
    (hdrsFull : List Nat) :
    ∀ (attrs2 : List Attribute) (k oidx pos : Nat) (data hdrs tail : List Nat),
      (∀ (i : Nat) (a : Attribute), (i, a) ∈ enumFrom k attrs2 →
        bmp.bget i = some ((List.lookup a.name vals).isSome)) →
      writeValsAux vals bmp (enumFrom k attrs2) pos = .ok (data, hdrs) →
      (∀ a ∈ attrs2, ∀ v, List.lookup a.name vals = some v → ValueWf v = true) →
      hdrsFull.drop oidx = hdrs →
      buf.drop pos = data ++ tail →
      pos ≤ buf.length →
      pos + data.length < 2 ^ 16 →
      readValsAux buf bmp hdrsFull (enumFrom k attrs2) oidx pos
        = .ok (presentVals attrs2 vals) := by
  intro attrs2
  induction attrs2 with
  | nil =>
    intro k oidx pos data hdrs tail _ _ _ _ _ _ _
    rfl
  | cons a rest ih =>
    intro k oidx pos data hdrs tail hchar hw hvwf hdrop hbuf hpos hfit
    have hbg := hchar k a (List.mem_cons_self _ _)
    have hchar2 : ∀ (i : Nat) (a2 : Attribute), (i, a2) ∈ enumFrom (k + 1) rest →
        bmp.bget i = some ((List.lookup a2.name vals).isSome) :=
      fun i a2 hm => hchar i a2 (List.mem_cons_of_mem _ hm)
    have hvwf2 : ∀ a2 ∈ rest, ∀ v, List.lookup a2.name vals = some v →
        ValueWf v = true :=
      fun a2 hm v hv => hvwf a2 (List.mem_cons_of_mem _ hm) v hv
    have hw2 : writeValsAux vals bmp ((k, a) :: enumFrom (k + 1) rest) pos
        = .ok (data, hdrs) := hw
    rw [writeValsAux_cons] at hw2
    show readValsAux buf bmp hdrsFull ((k, a) :: enumFrom (k + 1) rest) oidx pos = _
    rw [readValsAux_cons]
    rcases hlk : List.lookup a.name vals with _ | v
    · rw [hlk] at hbg
      simp only [Option.isSome_none] at hbg
      rw [hbg] at hw2 ⊢
      rw [presentVals_cons_none rest vals a hlk]
      exact ih (k + 1) oidx pos data hdrs tail hchar2 hw2 hvwf2 hdrop hbuf hpos hfit
    · rw [hlk] at hbg
      simp only [Option.isSome_some] at hbg
      rw [hbg] at hw2 ⊢
      rw [hlk] at hw2
      have hw3 : (if attributeTypeMatchesValue a.attribute_type v then
          (match writeValsAux vals bmp (enumFrom (k + 1) rest)
              (pos + (encodeValue v).length) with
            | .error e => Except.error e
            | .ok (data, hdrs) =>
                Except.ok (encodeValue v ++ data,
                  (pos + (encodeValue v).length) % 2 ^ 16 :: hdrs))
          else Except.error WErr.typeMismatch) = Except.ok (data, hdrs) := hw2
      rcases htm : attributeTypeMatchesValue a.attribute_type v with hf | ht
      · rw [htm] at hw3
        simp at hw3
      · rw [htm, if_pos rfl] at hw3
        rcases hwa : writeValsAux vals bmp (enumFrom (k + 1) rest)
            (pos + (encodeValue v).length) with e | pr
        · rw [hwa] at hw3
          simp at hw3
        · rcases pr with ⟨data', hdrs'⟩
          rw [hwa] at hw3
          have hw4 : (Except.ok (encodeValue v ++ data',
              (pos + (encodeValue v).length) % 2 ^ 16 :: hdrs')
                : Except WErr (List Nat × List Nat)) = Except.ok (data, hdrs) := hw3
          injection hw4 with h4i
          injection h4i with hd hh
          subst hd hh
          have hlenfact : buf.length - pos
              = (encodeValue v).length + data'.length + tail.length := by
            have hc := congrArg List.length hbuf
            simp only [List.length_drop, List.length_append] at hc
            omega
          simp only [List.length_append] at hfit
          have hbuf' := drop_after_seg buf (encodeValue v) data' tail pos hbuf
          have hre : readExact buf pos (encodeValue v).length = some (encodeValue v) :=
            readExact_exact buf (encodeValue v) data' tail pos hbuf hpos
          have hdrop' : hdrsFull.drop (oidx + 1) = hdrs' := by
            rw [drop_pos_add, hdrop]
            rfl
          have hget : hdrsFull.get? oidx
              = some ((pos + (encodeValue v).length) % 2 ^ 16) := by
            have hge := List.getElem?_drop hdrsFull oidx 0
            rw [hdrop] at hge
            rw [List.get?_eq_getElem?]
            simpa using hge.symm
          have hrec := ih (k + 1) (oidx + 1) (pos + (encodeValue v).length)
            data' hdrs' tail hchar2 hwa hvwf2 hdrop' hbuf' (by omega) (by omega)
          have hwfv := hvwf a (List.mem_cons_self _ _) v hlk
          rcases hat : a.attribute_type with _ | _ | maxLen
          · rw [hat] at htm
            rcases v with n | bits | s
            · have h4 : (encodeValue (AttributeValue.int n)).length = 4 := by
                rw [encodeValue_length]
                rfl
              rw [← h4, hre, hrec]
              have hdec : decI32 (encodeValue (AttributeValue.int n)) = n := by
                rw [show ValueWf (AttributeValue.int n)
                    = (decide (-(2 ^ 31) ≤ n) && decide (n < 2 ^ 31)) from rfl,
                  Bool.and_eq_true, decide_eq_true_eq, decide_eq_true_eq] at hwfv
                exact decI32_encI32 hwfv.1 hwfv.2
              show Except.ok ((a.name,
                  AttributeValue.int (decI32 (encodeValue (AttributeValue.int n))))
                    :: presentVals rest vals) = _
              rw [hdec, presentVals_cons_some rest vals a (AttributeValue.int n) hlk]
            · simp [attributeTypeMatchesValue] at htm
            · simp [attributeTypeMatchesValue] at htm
          · rw [hat] at htm
            rcases v with n | bits | s
            · simp [attributeTypeMatchesValue] at htm
            · have h8 : (encodeValue (AttributeValue.real bits)).length = 8 := by
                rw [encodeValue_length]
                rfl
              rw [← h8, hre, hrec]
              have hdec : decLE (encodeValue (AttributeValue.real bits)) = bits := by
                rw [show ValueWf (AttributeValue.real bits)
                    = decide (bits < 2 ^ 64) from rfl, decide_eq_true_eq] at hwfv
                refine decLE_encLE_of_lt ?_
                norm_num at hwfv ⊢
                omega
              show Except.ok ((a.name,
                  AttributeValue.real (decLE (encodeValue (AttributeValue.real bits))))
                    :: presentVals rest vals) = _
              rw [hdec, presentVals_cons_some rest vals a (AttributeValue.real bits) hlk]
            · simp [attributeTypeMatchesValue] at htm
          · rw [hat] at htm
            rcases v with n | bits | s
            · simp [attributeTypeMatchesValue] at htm
            · simp [attributeTypeMatchesValue] at htm
            · have hslen : (encodeValue (AttributeValue.varchar s)).length = s.length := rfl
              have htm2 : s.length ≤ maxLen := by
                rw [show attributeTypeMatchesValue (AttributeType.varchar maxLen)
                    (AttributeValue.varchar s) = decide (s.length ≤ maxLen) from rfl,
                  decide_eq_true_eq] at htm
                exact htm
              have hget2 : hdrsFull.get? oidx = some (pos + s.length) := by
                rw [hget, hslen, Nat.mod_eq_of_lt (by
                  rw [hslen] at hfit
                  omega)]
              rw [hget2]
              show (if pos + s.length < pos then Except.error RdErr.panicked
                else
                  if maxLen < pos + s.length - pos then Except.error RdErr.varcharTooLong
                  else
                    match readExact buf pos (pos + s.length - pos) with
                    | none => Except.error RdErr.eofRead
                    | some bs =>
                      match readValsAux buf bmp hdrsFull (enumFrom (k + 1) rest)
                          (oidx + 1) (pos + (pos + s.length - pos)) with
                      | .error e => Except.error e
                      | .ok r => Except.ok ((a.name, AttributeValue.varchar bs) :: r))
                = _
              rw [show pos + s.length - pos = s.length by omega]
              rw [if_neg (by omega), if_neg (by omega)]
              have hre2 : readExact buf pos s.length = some s := hre
              have hrec2 : readValsAux buf bmp hdrsFull (enumFrom (k + 1) rest)
                  (oidx + 1) (pos + s.length) = Except.ok (presentVals rest vals) := hrec
              rw [hre2, hrec2]
              show Except.ok ((a.name, AttributeValue.varchar s)
                  :: presentVals rest vals) = _
              rw [presentVals_cons_some rest vals a (AttributeValue.varchar s) hlk]

theorem writeValsAux_ok (vals : Record) (bmp : Bitmap) :
    ∀ (attrs2 : List Attribute) (k dOff oh dl : Nat),
      (∀ (i : Nat) (a : Attribute), (i, a) ∈ enumFrom k attrs2 →
        bmp.bget i = some ((List.lookup a.name vals).isSome)) →
      recordSizeAux vals attrs2 = .ok (oh, dl) →
      ∃ data hdrs, writeValsAux vals bmp (enumFrom k attrs2) dOff = .ok (data, hdrs) := by
  intro attrs2
  induction attrs2 with
  | nil =>
    intro k dOff oh dl _ _
    exact ⟨[], [], rfl⟩
  | cons a rest ih =>
    intro k dOff oh dl hchar hrs
    have hbg := hchar k a (List.mem_cons_self _ _)
    have hchar2 : ∀ (i : Nat) (a2 : Attribute), (i, a2) ∈ enumFrom (k + 1) rest →
        bmp.bget i = some ((List.lookup a2.name vals).isSome) :=
      fun i a2 hm => hchar i a2 (List.mem_cons_of_mem _ hm)
    rw [recordSizeAux_cons] at hrs
    rcases hlk : List.lookup a.name vals with _ | v
    · rw [hlk] at hrs hbg
      simp only [Option.isSome_none] at hbg
      obtain ⟨data, hdrs, hwa⟩ := ih (k + 1) dOff oh dl hchar2 hrs
      refine ⟨data, hdrs, ?_⟩
      show writeValsAux vals bmp ((k, a) :: enumFrom (k + 1) rest) dOff = _
      rw [writeValsAux_cons, hbg]
      exact hwa
    · rw [hlk] at hrs hbg
      simp only [Option.isSome_some] at hbg
      have hrs2 : (if attributeTypeMatchesValue a.attribute_type v then
          (match recordSizeAux vals rest with
            | .error e => Except.error e
            | .ok (oh, dl) => Except.ok (oh + 2, dl + valSize v))
          else Except.error ()) = Except.ok (oh, dl) := hrs
      rcases htm : attributeTypeMatchesValue a.attribute_type v with hf | ht
      · rw [htm] at hrs2
        simp at hrs2
      · rw [htm, if_pos rfl] at hrs2
        rcases hra : recordSizeAux vals rest with e | pr
        · rw [hra] at hrs2
          simp at hrs2
        · rcases pr with ⟨oh', dl'⟩
          obtain ⟨data', hdrs', hwa⟩ :=
            ih (k + 1) (dOff + (encodeValue v).length) oh' dl' hchar2 hra
          refine ⟨encodeValue v ++ data',
            (dOff + (encodeValue v).length) % 2 ^ 16 :: hdrs', ?_⟩
          have hstep : writeValsAux vals bmp ((k, a) :: enumFrom (k + 1) rest) dOff
              = (if attributeTypeMatchesValue a.attribute_type v then
                (match writeValsAux vals bmp (enumFrom (k + 1) rest)
                    (dOff + (encodeValue v).length) with
                  | .error e => Except.error e
                  | .ok (data, hdrs) =>
                      Except.ok (encodeValue v ++ data,
                        (dOff + (encodeValue v).length) % 2 ^ 16 :: hdrs))
                else Except.error WErr.typeMismatch) := by
            rw [writeValsAux_cons, hbg, hlk]
          show writeValsAux vals bmp ((k, a) :: enumFrom (k + 1) rest) dOff = _
          rw [hstep, htm, if_pos rfl, hwa]

theorem length_flatMap_encLE2 : ∀ l : List Nat, (l.flatMap (encLE 2)).length = 2 * l.length
  | [] => rfl
  | x :: t => by
    rw [List.flatMap_cons, List.length_append, length_encLE, length_flatMap_encLE2 t,
      List.length_cons]
    omega

theorem bget_isSome (b : Bitmap) (idx : Nat) (h : idx < b.size) :
    ∃ bv, b.bget idx = some bv :=
  ⟨_, bget_eq_testBit b idx h⟩

set_option maxHeartbeats 1000000 in
/-- Full record codec round trip: a record accepted by `record_size` and
written by `write_record_into_buf` decodes, from any buffer extending the
record bytes, to exactly the present attribute/value pairs. -/
theorem codec_roundtrip (attrs : List Attribute) (vals : Record) (rsz : Nat)
    (recBytes junk : List Nat)
    (hsz : recordSize attrs vals = .ok rsz)
    (hvwf : ∀ a ∈ attrs, ∀ v, List.lookup a.name vals = some v → ValueWf v = true)
    (hw : writeRecordIntoBuf attrs vals = .ok recBytes)
    (hn : attrs.length < 2 ^ 16)
    (hr : rsz < 2 ^ 16) :
    recBytes.length = rsz ∧
      readRecordFromBuf attrs (recBytes ++ junk) = .ok (presentVals attrs vals) := by
  unfold writeRecordIntoBuf at hw
  rcases hbm : buildBmp vals (enumFrom 0 attrs) (Bitmap.new attrs.length) 0 with _ | pr
  · rw [hbm] at hw
    simp at hw
  rcases pr with ⟨bmp, vc⟩
  rw [hbm] at hw
  have hw2 : (match writeValsAux vals bmp (enumFrom 0 attrs)
      (2 + nullBitmapLen attrs.length + vc * 2) with
    | .error e => Except.error e
    | .ok (data, hdrs) =>
        Except.ok (encLE 2 (attrs.length % 2 ^ 16) ++ bmp.bmp
          ++ hdrs.flatMap (encLE 2) ++ data)) = Except.ok recBytes := hw
  rcases hwv : writeValsAux vals bmp (enumFrom 0 attrs)
      (2 + nullBitmapLen attrs.length + vc * 2) with e | pr2
  · rw [hwv] at hw2
    simp at hw2
  rcases pr2 with ⟨data, hdrs⟩
  rw [hwv] at hw2
  have hw3 : (Except.ok (encLE 2 (attrs.length % 2 ^ 16) ++ bmp.bmp
      ++ hdrs.flatMap (encLE 2) ++ data) : Except WErr (List Nat))
      = Except.ok recBytes := hw2
  injection hw3 with hrb
  subst hrb
  unfold recordSize at hsz
  rcases hra : recordSizeAux vals attrs with e | pr3
  · rw [hra] at hsz
    simp at hsz
  rcases pr3 with ⟨oh, dl⟩
  rw [hra] at hsz
  have hsz2 : (Except.ok (nullBitmapLen attrs.length + 2 + oh + dl) : Except Unit Nat)
      = Except.ok rsz := hsz
  injection hsz2 with hrsz
  obtain ⟨b2, cnt2, heq, hb2size, hb2len, hlow, hset, hcnt⟩ :=
    buildBmp_spec vals attrs 0 (Bitmap.new attrs.length) 0
      (by
        show 0 + attrs.length ≤ attrs.length
        omega)
      (by
        show Bitmap.bmpSizeInBytes attrs.length
          = (List.replicate (Bitmap.bmpSizeInBytes attrs.length) 0).length
        rw [List.length_replicate])
  rw [hbm] at heq
  injection heq with heq2
  injection heq2 with hbb hcc
  subst hbb hcc
  have hsizeb : bmp.size = attrs.length := hb2size
  have hlenb : bmp.bmp.length = Bitmap.bmpSizeInBytes attrs.length := by
    rw [hb2len]
    show (List.replicate (Bitmap.bmpSizeInBytes attrs.length) 0).length = _
    rw [List.length_replicate]
  have hchar : ∀ (i : Nat) (a : Attribute), (i, a) ∈ enumFrom 0 attrs →
      bmp.bget i = some ((List.lookup a.name vals).isSome) := by
    intro i a hm
    refine hset i a hm (Bitmap.bget_new ?_)
    have := mem_enumFrom attrs 0 i a hm
    omega
  have hvc : vc = countPresent vals attrs := by simpa using hcnt
  obtain ⟨hhl, hbound⟩ := writeValsAux_hdrs vals bmp (enumFrom 0 attrs) _ data hdrs hwv
  have hhlvc : hdrs.length = vc := by
    rw [hhl, setCount_eq_countPresent vals bmp attrs 0 hchar, hvc]
  obtain ⟨hdlen, hohlen⟩ :=
    writeValsAux_sizes vals bmp attrs 0 _ oh dl data hdrs hchar hra hwv
  have hflat : (hdrs.flatMap (encLE 2)).length = 2 * hdrs.length :=
    length_flatMap_encLE2 hdrs
  have hlenE : (encLE 2 (attrs.length % 2 ^ 16)).length = 2 := length_encLE 2 _
  have hblnn : nullBitmapLen attrs.length = Bitmap.bmpSizeInBytes attrs.length := rfl
  have hrblen : (encLE 2 (attrs.length % 2 ^ 16) ++ bmp.bmp
      ++ hdrs.flatMap (encLE 2) ++ data).length = rsz := by
    simp only [List.length_append, hlenE, hflat, hdlen, hlenb]
    rw [← hblnn]
    omega
  refine ⟨hrblen, ?_⟩
  set B : List Nat := (encLE 2 (attrs.length % 2 ^ 16) ++ bmp.bmp
    ++ hdrs.flatMap (encLE 2) ++ data) ++ junk with hB
  have hBlen : B.length = rsz + junk.length := by
    rw [hB, List.length_append, hrblen]
  have h1 := readExact_exact B (encLE 2 (attrs.length % 2 ^ 16))
    (bmp.bmp ++ (hdrs.flatMap (encLE 2) ++ data)) junk 0
    (by rw [hB]; simp [List.append_assoc]) (by omega)
  rw [hlenE] at h1
  have hd2 := drop_after_seg B (encLE 2 (attrs.length % 2 ^ 16))
    (bmp.bmp ++ (hdrs.flatMap (encLE 2) ++ data)) junk 0
    (by rw [hB]; simp [List.append_assoc])
  rw [hlenE] at hd2
  simp only [Nat.zero_add] at hd2
  have hd2b : B.drop 2 = (bmp.bmp ++ (hdrs.flatMap (encLE 2) ++ data)) ++ junk := hd2
  have h2 := readExact_exact B bmp.bmp (hdrs.flatMap (encLE 2) ++ data) junk 2 hd2b
    (by omega)
  rw [hlenb] at h2
  have hd3 := drop_after_seg B bmp.bmp (hdrs.flatMap (encLE 2) ++ data) junk 2 hd2b
  rw [hlenb] at hd3
  have hd3b : B.drop (2 + Bitmap.bmpSizeInBytes attrs.length)
      = (hdrs.flatMap (encLE 2) ++ data) ++ junk := hd3
  have hnew : Bitmap.newWithVec attrs.length bmp.bmp = some bmp := by
    unfold Bitmap.newWithVec
    rw [if_pos hlenb.symm, ← hsizeb]
  have h4 : readHdrs bmp B (List.range attrs.length)
      (2 + Bitmap.bmpSizeInBytes attrs.length)
      = .ok (hdrs, 2 + Bitmap.bmpSizeInBytes attrs.length + 2 * hdrs.length) := by
    refine readHdrs_ok bmp B (List.range attrs.length) hdrs (data ++ junk)
      (2 + Bitmap.bmpSizeInBytes attrs.length) ?_ ?_ hbound ?_ ?_
    · intro i hi
      exact bget_isSome bmp i (by rw [hsizeb]; exact List.mem_range.mp hi)
    · rw [List.range_eq_range', ← map_fst_enumFrom]
      exact hhl.symm
    · rw [hd3b, List.append_assoc]
    · rw [hblnn] at hrsz
      omega
  have hd4 := drop_after_seg B (hdrs.flatMap (encLE 2)) data junk
    (2 + Bitmap.bmpSizeInBytes attrs.length) hd3b
  rw [hflat] at hd4
  have harith : 2 + nullBitmapLen attrs.length + vc * 2
      = 2 + Bitmap.bmpSizeInBytes attrs.length + 2 * hdrs.length := by
    rw [← hblnn]
    omega
  rw [harith] at hwv
  have hval := readValsAux_spec vals bmp B hdrs attrs 0 0
    (2 + Bitmap.bmpSizeInBytes attrs.length + 2 * hdrs.length) data hdrs junk
    hchar hwv hvwf (List.drop_zero hdrs) hd4
    (by
      rw [hblnn] at hrsz
      omega)
    (by
      rw [hdlen]
      rw [hblnn] at hrsz
      omega)
  have hnum : decLE (encLE 2 (attrs.length % 2 ^ 16)) = attrs.length := by
    rw [decLE_encLE_of_lt (by
      have hx := Nat.mod_lt attrs.length (show 0 < 2 ^ 16 by norm_num)
      norm_num at hx ⊢
      omega)]
    exact Nat.mod_eq_of_lt hn
  show readRecordFromBuf attrs B = _
  rw [show readRecordFromBuf attrs B = (match readExact B 0 2 with
    | none => Except.error RdErr.eofRead
    | some nb =>
      match readExact B 2 (Bitmap.bmpSizeInBytes (decLE nb)) with
      | none => Except.error RdErr.eofRead
      | some bv =>
        match Bitmap.newWithVec (decLE nb) bv with
        | none => Except.error RdErr.panicked
        | some bmp2 =>
          match readHdrs bmp2 B (List.range (decLE nb))
              (2 + Bitmap.bmpSizeInBytes (decLE nb)) with
          | .error e => Except.error e
          | .ok (hdrs2, pos2) => readValsAux B bmp2 hdrs2 (enumFrom 0 attrs) 0 pos2)
    from rfl]
  rw [h1]
  show (match readExact B 2 (Bitmap.bmpSizeInBytes
      (decLE (encLE 2 (attrs.length % 2 ^ 16)))) with
    | none => Except.error RdErr.eofRead
    | some bv =>
      match Bitmap.newWithVec (decLE (encLE 2 (attrs.length % 2 ^ 16))) bv with
      | none => Except.error RdErr.panicked
      | some bmp2 =>
        match readHdrs bmp2 B (List.range (decLE (encLE 2 (attrs.length % 2 ^ 16))))
            (2 + Bitmap.bmpSizeInBytes (decLE (encLE 2 (attrs.length % 2 ^ 16)))) with
        | .error e => Except.error e
        | .ok (hdrs2, pos2) => readValsAux B bmp2 hdrs2 (enumFrom 0 attrs) 0 pos2) = _
  rw [hnum, h2]
  show (match Bitmap.newWithVec attrs.length bmp.bmp with
    | none => Except.error RdErr.panicked
    | some bmp2 =>
      match readHdrs bmp2 B (List.range attrs.length)
          (2 + Bitmap.bmpSizeInBytes attrs.length) with
      | .error e => Except.error e
      | .ok (hdrs2, pos2) => readValsAux B bmp2 hdrs2 (enumFrom 0 attrs) 0 pos2) = _
  rw [hnew]
  show (match readHdrs bmp B (List.range attrs.length)
      (2 + Bitmap.bmpSizeInBytes attrs.length) with
    | .error e => Except.error e
    | .ok (hdrs2, pos2) => readValsAux B bmp hdrs2 (enumFrom 0 attrs) 0 pos2) = _
  rw [h4]
  show readValsAux B bmp hdrs (enumFrom 0 attrs) 0
      (2 + Bitmap.bmpSizeInBytes attrs.length + 2 * hdrs.length) = _
  exact hval

theorem lookup_presentVals_of_some (vals : Record) :
    ∀ (attrs : List Attribute) (s : String) (v : AttributeValue),
      List.lookup s (presentVals attrs vals) = some v → List.lookup s vals = some v := by
  intro attrs
  induction attrs with
  | nil =>
    intro s v h
    simp [presentVals] at h
  | cons a rest ih =>
    intro s v h
    rcases hlk : List.lookup a.name vals with _ | w
    · rw [presentVals_cons_none rest vals a hlk] at h
      exact ih s v h
    · rw [presentVals_cons_some rest vals a w hlk, List.lookup] at h
      rcases hsk : s == a.name with hf | ht
      · rw [hsk] at h
        exact ih s v h
      · rw [hsk] at h
        have h2 : some w = some v := h
        injection h2 with h3
        rw [eq_of_beq hsk, hlk, h3]

theorem lookup_presentVals_of_mem (vals : Record) :
    ∀ (attrs : List Attribute) (s : String) (v : AttributeValue),
      List.lookup s vals = some v → (∃ a ∈ attrs, a.name = s) →
      List.lookup s (presentVals attrs vals) = some v := by
  intro attrs
  induction attrs with
  | nil =>
    intro s v _ hex
    obtain ⟨a0, hm, _⟩ := hex
    exact absurd hm (List.not_mem_nil _)
  | cons a rest ih =>
    intro s v hv hex
    rcases hlk : List.lookup a.name vals with _ | w
    · rw [presentVals_cons_none rest vals a hlk]
      obtain ⟨a0, hm, hname⟩ := hex
      rcases List.mem_cons.mp hm with h1 | h2
      · subst h1
        rw [hname] at hlk
        rw [hlk] at hv
        exact absurd hv (by simp)
      · exact ih s v hv ⟨a0, h2, hname⟩
    · rw [presentVals_cons_some rest vals a w hlk, List.lookup]
      rcases hsk : s == a.name with hf | ht
      · obtain ⟨a0, hm, hname⟩ := hex
        rcases List.mem_cons.mp hm with h1 | h2
        · subst h1
          rw [hname] at hsk
          simp at hsk
        · exact ih s v hv ⟨a0, h2, hname⟩
      · have hs : s = a.name := eq_of_beq hsk
        rw [hs, hlk] at hv
        exact hv

theorem presentVals_mem_shape (vals : Record) :
    ∀ (attrs : List Attribute) (p : String × AttributeValue),
      p ∈ presentVals attrs vals →
      ∃ a ∈ attrs, p.1 = a.name ∧ List.lookup a.name vals = some p.2 := by
  intro attrs
  induction attrs with
  | nil =>
    intro p hp
    simp [presentVals] at hp
  | cons a rest ih =>
    intro p hp
    rcases hlk : List.lookup a.name vals with _ | w
    · rw [presentVals_cons_none rest vals a hlk] at hp
      obtain ⟨a0, hm, h1, h2⟩ := ih p hp
      exact ⟨a0, List.mem_cons_of_mem _ hm, h1, h2⟩
    · rw [presentVals_cons_some rest vals a w hlk] at hp
      rcases List.mem_cons.mp hp with h1 | h2
      · subst h1
        exact ⟨a, List.mem_cons_self _ _, rfl, hlk⟩
      · obtain ⟨a0, hm, h3, h4⟩ := ih p h2
        exact ⟨a0, List.mem_cons_of_mem _ hm, h3, h4⟩

theorem lookup_presentVals_eq (vals : Record) (attrs : List Attribute) (a : Attribute)
    (ha : a ∈ attrs) :
    List.lookup a.name (presentVals attrs vals) = List.lookup a.name vals := by
  rcases hlk : List.lookup a.name vals with _ | v
  · rcases h2 : List.lookup a.name (presentVals attrs vals) with _ | w
    · rfl
    · rw [lookup_presentVals_of_some vals attrs a.name w h2] at hlk
      exact absurd hlk (by simp)
  · exact lookup_presentVals_of_mem vals attrs a.name v hlk ⟨a, ha, rfl⟩

theorem sliceP_writeBytes_after (p : PageBuf) (s : Nat) (bs : List Nat) :
    ∀ (k a : Nat), s + bs.length ≤ a → sliceP (writeBytes p s bs) a k = sliceP p a k := by
  intro k
  induction k with
  | zero =>
    intro a _
    rfl
  | succ k ih =>
    intro a ha
    simp only [sliceP]
    rw [ih (a + 1) (by omega)]
    congr 1
    unfold writeBytes
    rw [if_neg (by omega)]

/-- A successful insert into a freshly created file: the record is written
at offset `PAGE_SIZE - required_space` of the single page, under the new
header `{data_start_offset: PAGE_SIZE - required_space,
slots_vec: [{length: required_space, offset: that offset}]}`. -/
theorem insert_fresh (attrs : List Attribute) (vals : Record) (rsz : Nat)
    (recBytes : List Nat)
    (hsz : recordSize attrs vals = .ok rsz)
    (hw : writeRecordIntoBuf attrs vals = .ok recBytes)
    (hfit : RECORD_ENTRY_SIZE + rsz + RECORD_ENTRY_SIZE + HDR_SIZE ≤ pageSize) :
    insert (rbfmCreate attrs) vals
      = .ok (⟨0, 0⟩,
        ⟨⟨[writeBytes (writeBytes initRbPage 0
            (encodeHdr ⟨pageSize - (RECORD_ENTRY_SIZE + rsz),
              [⟨RECORD_ENTRY_SIZE + rsz,
                ((pageSize - (RECORD_ENTRY_SIZE + rsz) : Nat) : Int)⟩]⟩))
            (pageSize - (RECORD_ENTRY_SIZE + rsz)) recBytes],
          HEADER_LEN + 0 * pageSize + pageSize⟩, attrs⟩) := by
  have hps : pageSize = 8192 := rfl
  have hes : RECORD_ENTRY_SIZE = 8 := rfl
  have hhs : HDR_SIZE = 12 := rfl
  have hreq_le : RECORD_ENTRY_SIZE + rsz ≤ pageSize := by omega
  have hso : u32sub pageSize (RECORD_ENTRY_SIZE + rsz)
      = pageSize - (RECORD_ENTRY_SIZE + rsz) :=
    u32sub_no_underflow hreq_le (by rw [hps]; norm_num)
  have hsolt : pageSize - (RECORD_ENTRY_SIZE + rsz) < 2 ^ 31 := by
    rw [hps] at *
    omega
  have hoffInt : i32ofU32 (pageSize - (RECORD_ENTRY_SIZE + rsz))
      = ((pageSize - (RECORD_ENTRY_SIZE + rsz) : Nat) : Int) := by
    unfold i32ofU32
    rw [if_pos hsolt]
  have hmod : (RECORD_ENTRY_SIZE + rsz) % 2 ^ 32 = RECORD_ENTRY_SIZE + rsz :=
    Nat.mod_eq_of_lt (by rw [hps] at *; omega)
  have hlen2 : (encodeHdr (⟨pageSize - (RECORD_ENTRY_SIZE + rsz),
      [⟨RECORD_ENTRY_SIZE + rsz,
        ((pageSize - (RECORD_ENTRY_SIZE + rsz) : Nat) : Int)⟩]⟩
        : SlotDirectoryHeader)).length = HDR_SIZE + RECORD_ENTRY_SIZE := by
    rw [length_encodeHdr]
    rfl
  have hchk : (encodeHdr (⟨pageSize - (RECORD_ENTRY_SIZE + rsz),
      [⟨RECORD_ENTRY_SIZE + rsz,
        ((pageSize - (RECORD_ENTRY_SIZE + rsz) : Nat) : Int)⟩]⟩
        : SlotDirectoryHeader)).length ≤ pageSize := by
    rw [hlen2]
    omega
  have hslice : pageSize - (RECORD_ENTRY_SIZE + rsz) + (RECORD_ENTRY_SIZE + rsz)
      ≤ pageSize := by omega
  have hscan : scanPagesAux (RECORD_ENTRY_SIZE + rsz)
      (List.range (rbfmCreate attrs).paged_file.pages.length) (false, 0) zeroPage
      (rbfmCreate attrs).paged_file
      = .ok (true, 0, initRbPage, ⟨[initRbPage], HEADER_LEN + 0 * pageSize + pageSize⟩) := by
    rw [rbfmCreate_pf]
    exact scan_fresh_found _ _ (by omega)
  unfold insert
  rw [rbfmCreate_attrs, hsz]
  simp only [hscan, decodeHdr_initRbPage, hso, hmod, hoffInt, if_true,
    List.nil_append]
  simp only [writeSlotDirectoryHdr_some initRbPage _ hchk, hslice, if_true, hw]
  rw [pfWritePage_set ⟨[initRbPage], HEADER_LEN + 0 * pageSize + pageSize⟩ 0 _ (by simp)]
  rfl

set_option maxHeartbeats 1000000 in
theorem readRec_single_valid (attrs : List Attribute) (pg : PageBuf) (p : Nat)
    (hdr : SlotDirectoryHeader) (e : SlotDirectoryRecordEntry)
    (hdec : decodeHdr pg = some hdr)
    (hne : hdr.slots_vec ≠ [])
    (hget : hdr.slots_vec.getD 0 default = e)
    (hstat : slotStatus e = .valid)
    (hfit : e.offset.toNat + e.length ≤ pageSize) :
    (readRec ⟨⟨[pg], p⟩, attrs⟩ 1 ⟨0, 0⟩).1
      = readRecordFromBuf attrs (sliceP pg e.offset.toNat e.length) := by
  rw [show (1 : Nat) = 0 + 1 from rfl]
  rw [readRec]
  rw [pfReadPage_single pg p]
  dsimp only
  rw [hdec]
  dsimp only
  rw [if_neg (by
    intro hc
    exact hne (List.length_eq_zero.mp (by omega)))]
  rw [hget, hstat]
  dsimp only
  rw [if_pos hfit]

theorem nullBitmapLen_ge (n : Nat) : n ≤ 8 * nullBitmapLen n := by
  show n ≤ 8 * Bitmap.bmpSizeInBytes n
  unfold Bitmap.bmpSizeInBytes
  dsimp only
  split <;> omega

theorem writeRecordIntoBuf_ok (attrs : List Attribute) (vals : Record) (oh dl : Nat)
    (hra : recordSizeAux vals attrs = .ok (oh, dl)) :
    ∃ recBytes, writeRecordIntoBuf attrs vals = .ok recBytes := by
  obtain ⟨b2, cnt2, heq, hb2size, hb2len, hlow, hset, hcnt⟩ :=
    buildBmp_spec vals attrs 0 (Bitmap.new attrs.length) 0
      (by
        show 0 + attrs.length ≤ attrs.length
        omega)
      (by
        show Bitmap.bmpSizeInBytes attrs.length
          = (List.replicate (Bitmap.bmpSizeInBytes attrs.length) 0).length
        rw [List.length_replicate])
  have hchar : ∀ (i : Nat) (a : Attribute), (i, a) ∈ enumFrom 0 attrs →
      b2.bget i = some ((List.lookup a.name vals).isSome) := by
    intro i a hm
    refine hset i a hm (Bitmap.bget_new ?_)
    have := mem_enumFrom attrs 0 i a hm
    omega
  obtain ⟨data, hdrs, hwv⟩ := writeValsAux_ok vals b2 attrs 0
    (2 + nullBitmapLen attrs.length + cnt2 * 2) oh dl hchar hra
  refine ⟨encLE 2 (attrs.length % 2 ^ 16) ++ b2.bmp ++ hdrs.flatMap (encLE 2) ++ data, ?_⟩
  unfold writeRecordIntoBuf
  rw [heq]
  show (match writeValsAux vals b2 (enumFrom 0 attrs)
      (2 + nullBitmapLen attrs.length + cnt2 * 2) with
    | .error e => Except.error e
    | .ok (data, hdrs) =>
        Except.ok (encLE 2 (attrs.length % 2 ^ 16) ++ b2.bmp
          ++ hdrs.flatMap (encLE 2) ++ data)) = _
  rw [hwv]

theorem slice_record_split (q : PageBuf) (recBytes : List Nat) (so rsz : Nat)
    (hlen : recBytes.length = rsz) :
    sliceP (writeBytes q so recBytes) so (RECORD_ENTRY_SIZE + rsz)
      = recBytes ++ sliceP q (so + rsz) RECORD_ENTRY_SIZE := by
  have hs1 : sliceP (writeBytes q so recBytes) so rsz = recBytes := by
    have hsw := sliceP_writeBytes_within q so recBytes rsz 0 (by omega)
    rw [Nat.add_zero] at hsw
    rw [hsw, List.drop_zero, List.take_of_length_le (by omega)]
  have hs2 := sliceP_writeBytes_after q so recBytes RECORD_ENTRY_SIZE (so + rsz) (by omega)
  rw [show RECORD_ENTRY_SIZE + rsz = rsz + RECORD_ENTRY_SIZE from by omega,
    sliceP_add, hs1, hs2]

set_option maxHeartbeats 1000000 in
/-- C1 (amended): for any schema and any value-wellformed record, provided
it fits the fresh page together with the slot-directory growth
(`required_space + 8 + 12 ≤ PAGE_SIZE`), `insert` on a freshly created
file returns `RecordId {0, 0}` and `read` of that id returns the mapping
agreeing with the input on every schema attribute (present attributes map
to their inserted values, absent attributes are absent), and containing
only schema attributes that were present in the input. -/
theorem c1_roundtrip_amended (attrs : List Attribute) (vals : Record) (rsz : Nat)
    (hsz : recordSize attrs vals = .ok rsz)
    (hvwf : ∀ p ∈ vals, ValueWf p.2 = true)
    (hfit : RECORD_ENTRY_SIZE + rsz + RECORD_ENTRY_SIZE + HDR_SIZE ≤ pageSize) :
    ∃ st2 out, insert (rbfmCreate attrs) vals = .ok (⟨0, 0⟩, st2)
      ∧ (readRec st2 1 ⟨0, 0⟩).1 = .ok out
      ∧ (∀ a ∈ attrs, List.lookup a.name out = List.lookup a.name vals)
      ∧ ∀ p ∈ out, ∃ a ∈ attrs, p.1 = a.name ∧ List.lookup a.name vals = some p.2 := by
  have hps : pageSize = 8192 := rfl
  have hes : RECORD_ENTRY_SIZE = 8 := rfl
  have hhs : HDR_SIZE = 12 := rfl
  have h16 : (2 : Nat) ^ 16 = 65536 := by norm_num
  have hsz' := hsz
  unfold recordSize at hsz'
  rcases hra : recordSizeAux vals attrs with e2 | pr
  · rw [hra] at hsz'
    simp at hsz'
  rcases pr with ⟨oh, dl⟩
  rw [hra] at hsz'
  have hsz2 : (Except.ok (nullBitmapLen attrs.length + 2 + oh + dl) : Except Unit Nat)
      = Except.ok rsz := hsz'
  injection hsz2 with hrsz
  have hble : attrs.length ≤ 8 * nullBitmapLen attrs.length := nullBitmapLen_ge _
  have hn : attrs.length < 2 ^ 16 := by omega
  have hr : rsz < 2 ^ 16 := by omega
  have hvwf' : ∀ a ∈ attrs, ∀ v, List.lookup a.name vals = some v → ValueWf v = true := by
    intro a _ v hv
    exact hvwf (a.name, v) (mem_of_lookup vals a.name v hv)
  obtain ⟨recBytes, hwok⟩ := writeRecordIntoBuf_ok attrs vals oh dl hra
  obtain ⟨hrblen, hread⟩ := codec_roundtrip attrs vals rsz recBytes
    (sliceP (writeBytes initRbPage 0
        (encodeHdr ⟨pageSize - (RECORD_ENTRY_SIZE + rsz),
          [⟨RECORD_ENTRY_SIZE + rsz,
            ((pageSize - (RECORD_ENTRY_SIZE + rsz) : Nat) : Int)⟩]⟩))
      (pageSize - (RECORD_ENTRY_SIZE + rsz) + rsz) RECORD_ENTRY_SIZE)
    hsz hvwf' hwok hn hr
  have hins := insert_fresh attrs vals rsz recBytes hsz hwok hfit
  have hwf2 : HdrWf ⟨pageSize - (RECORD_ENTRY_SIZE + rsz),
      [⟨RECORD_ENTRY_SIZE + rsz,
        ((pageSize - (RECORD_ENTRY_SIZE + rsz) : Nat) : Int)⟩]⟩ := by
    refine ⟨by show pageSize - (RECORD_ENTRY_SIZE + rsz) < 2 ^ 32; omega, ?_⟩
    intro e he
    have he2 : e = ⟨RECORD_ENTRY_SIZE + rsz,
        ((pageSize - (RECORD_ENTRY_SIZE + rsz) : Nat) : Int)⟩ := by simpa using he
    subst he2
    refine ⟨by show RECORD_ENTRY_SIZE + rsz < 2 ^ 32; omega, ?_, ?_⟩
    · show -(2 ^ 31) ≤ ((pageSize - (RECORD_ENTRY_SIZE + rsz) : Nat) : Int)
      omega
    · show ((pageSize - (RECORD_ENTRY_SIZE + rsz) : Nat) : Int) < 2 ^ 31
      omega
  have hlenh : (encodeHdr (⟨pageSize - (RECORD_ENTRY_SIZE + rsz),
      [⟨RECORD_ENTRY_SIZE + rsz,
        ((pageSize - (RECORD_ENTRY_SIZE + rsz) : Nat) : Int)⟩]⟩
        : SlotDirectoryHeader)).length = HDR_SIZE + RECORD_ENTRY_SIZE := by
    rw [length_encodeHdr]
    rfl
  have hchk : (encodeHdr (⟨pageSize - (RECORD_ENTRY_SIZE + rsz),
      [⟨RECORD_ENTRY_SIZE + rsz,
        ((pageSize - (RECORD_ENTRY_SIZE + rsz) : Nat) : Int)⟩]⟩
        : SlotDirectoryHeader)).length ≤ pageSize := by
    rw [hlenh]
    omega
  have hchk2 : (encodeHdr (⟨pageSize - (RECORD_ENTRY_SIZE + rsz),
      [⟨RECORD_ENTRY_SIZE + rsz,
        ((pageSize - (RECORD_ENTRY_SIZE + rsz) : Nat) : Int)⟩]⟩
        : SlotDirectoryHeader)).length ≤ pageSize - (RECORD_ENTRY_SIZE + rsz) := by
    rw [hlenh]
    omega
  have hdecp : decodeHdr (writeBytes (writeBytes initRbPage 0
      (encodeHdr ⟨pageSize - (RECORD_ENTRY_SIZE + rsz),
        [⟨RECORD_ENTRY_SIZE + rsz,
          ((pageSize - (RECORD_ENTRY_SIZE + rsz) : Nat) : Int)⟩]⟩))
      (pageSize - (RECORD_ENTRY_SIZE + rsz)) recBytes)
      = some ⟨pageSize - (RECORD_ENTRY_SIZE + rsz),
          [⟨RECORD_ENTRY_SIZE + rsz,
            ((pageSize - (RECORD_ENTRY_SIZE + rsz) : Nat) : Int)⟩]⟩ :=
    decodeHdr_writeBytes_frame _ recBytes
      (decodeHdr_writeBytes_encodeHdr initRbPage _ hwf2 hchk) hchk2
  have hstat : slotStatus ⟨RECORD_ENTRY_SIZE + rsz,
      ((pageSize - (RECORD_ENTRY_SIZE + rsz) : Nat) : Int)⟩ = .valid := by
    unfold slotStatus
    rw [if_neg (by
      intro hc
      have := hc.1
      simp at this
      omega)]
    rw [if_neg (by
      show ¬ ((pageSize - (RECORD_ENTRY_SIZE + rsz) : Nat) : Int) < 0
      omega)]
  have hrd := readRec_single_valid attrs
    (writeBytes (writeBytes initRbPage 0
      (encodeHdr ⟨pageSize - (RECORD_ENTRY_SIZE + rsz),
        [⟨RECORD_ENTRY_SIZE + rsz,
          ((pageSize - (RECORD_ENTRY_SIZE + rsz) : Nat) : Int)⟩]⟩))
      (pageSize - (RECORD_ENTRY_SIZE + rsz)) recBytes)
    (HEADER_LEN + 0 * pageSize + pageSize)
    ⟨pageSize - (RECORD_ENTRY_SIZE + rsz),
      [⟨RECORD_ENTRY_SIZE + rsz,
        ((pageSize - (RECORD_ENTRY_SIZE + rsz) : Nat) : Int)⟩]⟩
    ⟨RECORD_ENTRY_SIZE + rsz,
      ((pageSize - (RECORD_ENTRY_SIZE + rsz) : Nat) : Int)⟩
    hdecp (by simp) rfl hstat
    (by
      show (((pageSize - (RECORD_ENTRY_SIZE + rsz) : Nat) : Int)).toNat
        + (RECORD_ENTRY_SIZE + rsz) ≤ pageSize
      omega)
  have hsplit := slice_record_split (writeBytes initRbPage 0
      (encodeHdr ⟨pageSize - (RECORD_ENTRY_SIZE + rsz),
        [⟨RECORD_ENTRY_SIZE + rsz,
          ((pageSize - (RECORD_ENTRY_SIZE + rsz) : Nat) : Int)⟩]⟩))
    recBytes (pageSize - (RECORD_ENTRY_SIZE + rsz)) rsz hrblen
  refine ⟨_, presentVals attrs vals, hins, ?_, ?_, ?_⟩
  · rw [hrd]
    show readRecordFromBuf attrs (sliceP _
      (((pageSize - (RECORD_ENTRY_SIZE + rsz) : Nat) : Int)).toNat
      (RECORD_ENTRY_SIZE + rsz)) = _
    rw [show (((pageSize - (RECORD_ENTRY_SIZE + rsz) : Nat) : Int)).toNat
        = pageSize - (RECORD_ENTRY_SIZE + rsz) from by omega]
    rw [hsplit]
    exact hread
  · intro a ha
    exact lookup_presentVals_eq vals attrs a ha
  · intro p hp
    exact presentVals_mem_shape vals attrs p hp

/-- Witness for the amended C1: the two-attribute schema
`[A: Int, B: Varchar(5)]` with record `{A: 7, B: "hi"}` (`record_size = 13`)
satisfies every hypothesis of the round-trip theorem. -/
theorem c1_roundtrip_amended_witness :
    recordSize [⟨"A", .int⟩, ⟨"B", .varchar 5⟩]
        [("A", AttributeValue.int 7), ("B", AttributeValue.varchar [104, 105])]
      = .ok 13
    ∧ (∀ p ∈ [("A", AttributeValue.int 7),
        ("B", AttributeValue.varchar [104, 105])], ValueWf p.2 = true)
    ∧ RECORD_ENTRY_SIZE + 13 + RECORD_ENTRY_SIZE + HDR_SIZE ≤ pageSize
    ∧ ∃ st2 out,
        insert (rbfmCreate [⟨"A", .int⟩, ⟨"B", .varchar 5⟩])
            [("A", AttributeValue.int 7), ("B", AttributeValue.varchar [104, 105])]
          = .ok (⟨0, 0⟩, st2)
        ∧ (readRec st2 1 ⟨0, 0⟩).1 = .ok out
        ∧ (∀ a ∈ [(⟨"A", .int⟩ : Attribute), ⟨"B", .varchar 5⟩],
            List.lookup a.name out = List.lookup a.name
              [("A", AttributeValue.int 7), ("B", AttributeValue.varchar [104, 105])])
        ∧ ∀ p ∈ out, ∃ a ∈ [(⟨"A", .int⟩ : Attribute), ⟨"B", .varchar 5⟩],
            p.1 = a.name ∧ List.lookup a.name
              [("A", AttributeValue.int 7), ("B", AttributeValue.varchar [104, 105])]
              = some p.2 :=
  ⟨by decide, by decide, by decide,
    c1_roundtrip_amended [⟨"A", .int⟩, ⟨"B", .varchar 5⟩]
      [("A", AttributeValue.int 7), ("B", AttributeValue.varchar [104, 105])] 13
      (by decide) (by decide) (by decide)⟩
